import Mathlib

/-!
Record storage layer: heap file of fixed-size records.

Shallow embedding of `src/record/rm_file_handle.cpp` (record get / insert /
delete / update and the free-page list) and `src/record/rm_scan.cpp` (the
sequential scanner), followed by the properties proved about them.

Conventions of the embedding:

* C++ `int` fields that may hold a sentinel or go below zero (`page_no`,
  `slot_no`, `first_free_page_no`, `next_free_page_no`, `num_records`,
  `num_records_per_page`, `bitmap_size`) are `Int`; the counts `record_size`
  and `num_pages`, which the code only ever increments or uses as a length,
  are `Nat`.
* A page handle is the number of the page it points into; reads and writes
  through the handle go to the page held by the page cache for that number.
* A mutating member function becomes a function from the state before the
  call to the pair (result or raised error, state after the call).
-/

/-! ## Constants -/

/-- Modelled from the spec: the `RM_NO_PAGE` constant of the missing header, the
sentinel "no free pages" / "end of list" / "end of file" page number, `-1`. -/
def RM_NO_PAGE : Int := -1

/-- Modelled from the spec: the `RM_FIRST_RECORD_PAGE` constant of the missing header,
the number of the first data page (the scenario of the spec places the first
records on page 1). -/
def RM_FIRST_RECORD_PAGE : Int := 1

/-- Modelled from the spec: the `INVALID_PAGE_ID` constant of the missing header, the
sentinel page identity, `-1`. -/
def INVALID_PAGE_ID : Int := -1

/-! ## Data model -/

/-- Record locator `(page_no, slot_no)`. -/
structure Rid where
  page_no : Int
  slot_no : Int
deriving DecidableEq

/-- Owned record: `size` bytes copied out of a slot. -/
structure RmRecord where
  size : Nat
  data : List UInt8
deriving DecidableEq

/-- Errors raised by the record store. -/
inductive RmError where
  | PageNotExistError (page_no : Int)
  | SlotOccupied
deriving DecidableEq

/-- File header fields used by the record store. -/
structure RmFileHdr where
  record_size : Nat
  num_pages : Nat
  num_records_per_page : Int
  first_free_page_no : Int
  bitmap_size : Int
deriving DecidableEq

/-- Page header at the start of each data page. -/
structure RmPageHdr where
  next_free_page_no : Int
  num_records : Int
deriving DecidableEq

/-- Typed view of one page buffer: header, occupancy bit vector, slot array. The view
keeps the three regions apart, as the page layout does for slot numbers in
`[0, num_records_per_page)` with at least one slot per page; for other slot numbers the
regions of the byte buffer overlap, which `RawPage` below describes. The operations on
this view stand for the code on slot numbers in that range. -/
structure Page where
  page_hdr : RmPageHdr
  bitmap : Int → Bool
  slots : Int → List UInt8

/-- Page handle: a reference to the cached page with this number. -/
structure RmPageHandle where
  page_no : Int
deriving DecidableEq

/-- State of one open record file: its header and the page cache content for
the file. -/
structure RmFileHandle where
  file_hdr_ : RmFileHdr
  pages : Int → Page

/-! ## Bit vector primitive -/

namespace Bitmap

/-- Modelled from the spec: `is_set(bitmap, i)` of the missing bit vector
primitive. -/
def is_set (bm : Int → Bool) (pos : Int) : Bool := bm pos

/-- Modelled from the spec: `set(bitmap, i)` of the missing bit vector primitive. -/
def set (bm : Int → Bool) (pos : Int) : Int → Bool :=
  fun i => if i = pos then true else bm i

/-- Modelled from the spec: `reset(bitmap, i)` of the missing bit vector
primitive. -/
def reset (bm : Int → Bool) (pos : Int) : Int → Bool :=
  fun i => if i = pos then false else bm i

/-- The search loop of `next_bit`: examine `i`, `i + 1`, ... for at most `fuel`
positions. -/
def next_bit_loop (bit : Bool) (bm : Int → Bool) (max_n : Int) : Nat → Int → Int
  | 0, _ => max_n
  | fuel + 1, i => if is_set bm i == bit then i else next_bit_loop bit bm max_n fuel (i + 1)

/-- Modelled from the spec: `next_set(bitmap, from, limit)` of the missing bit vector
primitive, the least index strictly after `curr` and below `max_n` whose bit
equals `bit`, or `max_n` if there is none. -/
def next_bit (bit : Bool) (bm : Int → Bool) (max_n curr : Int) : Int :=
  next_bit_loop bit bm max_n (max_n - (curr + 1)).toNat (curr + 1)

/-- Number of set bits among the first `k` positions. -/
def count_set (bm : Int → Bool) : Nat → Nat
  | 0 => 0
  | k + 1 => count_set bm k + (if bm (k : Int) then 1 else 0)

/-- Number of set bits in `[0, n)`. -/
def popcount (bm : Int → Bool) (n : Int) : Int := (count_set bm n.toNat : Int)

end Bitmap

/-! ## Byte layout of a page -/

/-- Modelled from the spec: the byte buffer of one page, by byte offset from its start
(the missing page handle and bit vector primitive address it by pointer arithmetic).
Layout of the spec: the page header at byte 0 (`num_records`, then
`next_free_page_no`), the occupancy bit vector right after it, the slot array right
after the bit vector. An integer is taken as 4 bytes, least significant first, and
bit `i` of the vector as the bit of weight `128 >> (i % 8)` in byte `i / 8`. -/
def RawPage : Type := Int → UInt8

namespace RawPage

/-- A zero-filled page buffer. -/
def zeroed : RawPage := fun _ => 0

/-- Modelled from the spec: size of the page header of the missing declarations, two
integers. -/
def HDR_SIZE : Int := 8

/-- Modelled from the spec: offset of the slot array in the missing page handle, after
the header and the `ceil(n / 8)` bytes of the bit vector. -/
def slots_offset (n : Int) : Int := HDR_SIZE + (n + 7) / 8

/-- Modelled from the spec: offset of slot `slot_no`, which `get_slot` of the missing
page handle computes without a range check. -/
def slot_offset (record_size : Nat) (n slot_no : Int) : Int :=
  slots_offset n + slot_no * (record_size : Int)

/-- Copy of `len` bytes of `buf` to offset `off` (`memcpy` into the page). -/
def memcpy_at (pg : RawPage) (off : Int) (buf : List UInt8) (len : Nat) : RawPage :=
  fun a => if off ≤ a ∧ a < off + (len : Int) then buf.getD (a - off).toNat 0 else pg a

/-- The `len` bytes at offset `off`. -/
def read (pg : RawPage) (off : Int) (len : Nat) : List UInt8 :=
  (List.range len).map (fun i => pg (off + (i : Int)))

/-- Modelled from the spec: weight of bit `pos` within its byte in the missing bit
vector primitive. -/
def bit_mask (pos : Int) : UInt8 := (128 : UInt8) >>> (UInt8.ofNat (pos % 8).toNat)

/-- Modelled from the spec: the bit `pos` of the bit vector, `Bitmap::is_set` of the
missing bit vector primitive on the bytes. -/
def is_set (pg : RawPage) (pos : Int) : Bool :=
  (pg (HDR_SIZE + pos / 8) &&& bit_mask pos) != 0

/-- Modelled from the spec: set bit `pos` of the bit vector, `Bitmap::set` of the
missing bit vector primitive on the bytes. -/
def set (pg : RawPage) (pos : Int) : RawPage :=
  fun a => if a = HDR_SIZE + pos / 8 then pg a ||| bit_mask pos else pg a

/-- The 4-byte integer at offset `off`. -/
def read_int (pg : RawPage) (off : Int) : Int :=
  let u : Nat := (pg off).toNat + 256 * (pg (off + 1)).toNat + 65536 * (pg (off + 2)).toNat
    + 16777216 * (pg (off + 3)).toNat
  if u < 2147483648 then (u : Int) else (u : Int) - 4294967296

/-- Store the 4-byte integer `v` at offset `off`. -/
def write_int (pg : RawPage) (off : Int) (v : Int) : RawPage :=
  let u : Nat := (v % 4294967296).toNat
  fun a =>
    if a = off then UInt8.ofNat (u % 256)
    else if a = off + 1 then UInt8.ofNat (u / 256 % 256)
    else if a = off + 2 then UInt8.ofNat (u / 65536 % 256)
    else if a = off + 3 then UInt8.ofNat (u / 16777216 % 256)
    else pg a

/-- The header field `num_records`. -/
def num_records (pg : RawPage) : Int := read_int pg 0

/-- The header field `next_free_page_no`. -/
def next_free_page_no (pg : RawPage) : Int := read_int pg 4

/-- Number of set bits of the bit vector in `[0, n)`. -/
def popcount (pg : RawPage) (n : Int) : Int := Bitmap.popcount (fun i => is_set pg i) n

/-- The header writes of `create_new_page_handle` on the bytes of the new page. -/
def init (pg : RawPage) : RawPage := write_int (write_int pg 4 (-1)) 0 0

/-- The page writes of both inserts on the bytes: `memcpy` into the slot,
`Bitmap::set`, `num_records++`. -/
def write_slot (record_size : Nat) (n : Int) (pg : RawPage) (slot_no : Int)
    (buf : List UInt8) : RawPage :=
  let pg1 := memcpy_at pg (slot_offset record_size n slot_no) buf record_size
  let pg2 := set pg1 slot_no
  write_int pg2 0 (num_records pg2 + 1)

/-- The page write of `update_record` on the bytes: `memcpy` into the slot. -/
def update (record_size : Nat) (n : Int) (pg : RawPage) (slot_no : Int)
    (buf : List UInt8) : RawPage :=
  memcpy_at pg (slot_offset record_size n slot_no) buf record_size

/-- The bytes `get_record` copies out of slot `slot_no`. -/
def get_record (record_size : Nat) (n : Int) (pg : RawPage) (slot_no : Int) : List UInt8 :=
  read pg (slot_offset record_size n slot_no) record_size

/-- The bytes of a newly allocated page of a file with 16-byte records after
`insert_record` wrote the record `A` into slot 0, for a file with zero slots per
page. -/
def fresh_with_A_no_slots : RawPage := write_slot 16 0 (init zeroed) 0 (List.replicate 16 65)

/-- The bytes of page 1 in the scenario of the spec after `A..D` were inserted
(4 slots per page, 16-byte records). -/
def scenario_page1 : RawPage :=
  write_slot 16 4
    (write_slot 16 4
      (write_slot 16 4
        (write_slot 16 4 (init zeroed) 0 (List.replicate 16 65))
        1 (List.replicate 16 66))
      2 (List.replicate 16 67))
    3 (List.replicate 16 68)

end RawPage

/-! ## Page cache -/

/-- Copy of `n` bytes from `src` over the start of `dst`. -/
def memcpy (dst src : List UInt8) (n : Nat) : List UInt8 :=
  src.take n ++ dst.drop n

/-- Zero-filled page buffer. -/
def Page.zeroed (record_size : Nat) : Page :=
  { page_hdr := { next_free_page_no := 0, num_records := 0 }
    bitmap := fun _ => false
    slots := fun _ => List.replicate record_size 0 }

namespace RmFileHandle

/-- Replace the cached page `page_no`. -/
def set_page (s : RmFileHandle) (page_no : Int) (pg : Page) : RmFileHandle :=
  { s with pages := fun q => if q = page_no then pg else s.pages q }

/-- Modelled from the spec: `allocate(file)` of the missing page cache. A fresh
zero-filled buffer is handed out under the next page number of the file, which
is the file's page count. -/
def new_page (s : RmFileHandle) : Int × RmFileHandle :=
  ((s.file_hdr_.num_pages : Int),
   s.set_page (s.file_hdr_.num_pages : Int) (Page.zeroed s.file_hdr_.record_size))

/-! ## Record store (`rm_file_handle.cpp`) -/

/-- Embedding of `RmFileHandle::fetch_page_handle`. -/
def fetch_page_handle (_s : RmFileHandle) (page_no : Int) : Except RmError RmPageHandle :=
  if page_no = INVALID_PAGE_ID then .error (.PageNotExistError page_no)
  else .ok ⟨page_no⟩

/-- Embedding of `RmPageHandle::get_slot` through the state. -/
def get_slot (s : RmFileHandle) (h : RmPageHandle) (slot_no : Int) : List UInt8 :=
  (s.pages h.page_no).slots slot_no

/-- Embedding of `RmFileHandle::get_record`. -/
def get_record (s : RmFileHandle) (rid : Rid) : Except RmError RmRecord :=
  match s.fetch_page_handle rid.page_no with
  | .error e => .error e
  | .ok page_handle =>
    let record_data := s.get_slot page_handle rid.slot_no
    .ok { size := s.file_hdr_.record_size
          data := record_data.take s.file_hdr_.record_size }

/-- Embedding of `RmFileHandle::create_new_page_handle`. -/
def create_new_page_handle (s : RmFileHandle) : RmPageHandle × RmFileHandle :=
  let (new_page_no, s1) := s.new_page
  let pg := s1.pages new_page_no
  let pg1 : Page := { pg with page_hdr := { pg.page_hdr with next_free_page_no := -1 } }
  let pg2 : Page := { pg1 with page_hdr := { pg1.page_hdr with num_records := 0 } }
  let s2 := s1.set_page new_page_no pg2
  let s3 : RmFileHandle :=
    { s2 with file_hdr_ := { s2.file_hdr_ with num_pages := s2.file_hdr_.num_pages + 1 } }
  let s4 : RmFileHandle :=
    { s3 with file_hdr_ := { s3.file_hdr_ with first_free_page_no := new_page_no } }
  (⟨new_page_no⟩, s4)

/-- Embedding of `RmFileHandle::create_page_handle`. -/
def create_page_handle (s : RmFileHandle) : Except RmError RmPageHandle × RmFileHandle :=
  if s.file_hdr_.first_free_page_no ≠ -1 then
    (s.fetch_page_handle s.file_hdr_.first_free_page_no, s)
  else
    let (h, s1) := s.create_new_page_handle
    (.ok h, s1)

/-- The slot search loop of `insert_record(char*, Context*)` from index `i`,
with `fuel` indices left below `bitmap_size`. -/
def find_free_slot_loop (bm : Int → Bool) : Nat → Int → Int
  | 0, _ => -1
  | fuel + 1, i => if !Bitmap.is_set bm i then i else find_free_slot_loop bm fuel (i + 1)

/-- The slot search of `insert_record(char*, Context*)`: the first `i` in
`[0, bitmap_size)` whose bit is clear, or `-1`. -/
def find_free_slot (bm : Int → Bool) (bitmap_size : Int) : Int :=
  find_free_slot_loop bm bitmap_size.toNat 0

/-- The common tail of both inserts: copy the record into the slot, set the
bit, count the record, and update the free-list head if the page is now
full. On the typed view the copy and the bit do not touch each other, as in the code
for `0 ≤ slot_no < num_records_per_page`; `RawPage.write_slot` is the same sequence on
the bytes of the page. -/
def write_slot (s : RmFileHandle) (h : RmPageHandle) (slot_no : Int) (buf : List UInt8) :
    RmFileHandle :=
  let pg := s.pages h.page_no
  let pg1 : Page :=
    { pg with slots := fun i =>
        if i = slot_no then memcpy (pg.slots slot_no) buf s.file_hdr_.record_size
        else pg.slots i }
  let pg2 : Page := { pg1 with bitmap := Bitmap.set pg1.bitmap slot_no }
  let pg3 : Page :=
    { pg2 with page_hdr := { pg2.page_hdr with num_records := pg2.page_hdr.num_records + 1 } }
  let s1 := s.set_page h.page_no pg3
  if pg3.page_hdr.num_records = s1.file_hdr_.num_records_per_page then
    { s1 with file_hdr_ :=
        { s1.file_hdr_ with first_free_page_no := pg3.page_hdr.next_free_page_no } }
  else s1

/-- Embedding of `RmFileHandle::insert_record(char*, Context*)`. -/
def insert_record (s : RmFileHandle) (buf : List UInt8) : Except RmError Rid × RmFileHandle :=
  match s.create_page_handle with
  | (.error e, s1) => (.error e, s1)
  | (.ok page_handle, s1) =>
    let slot_no := find_free_slot (s1.pages page_handle.page_no).bitmap s1.file_hdr_.bitmap_size
    if slot_no = -1 then
      let (page_handle2, s2) := s1.create_new_page_handle
      (.ok ⟨page_handle2.page_no, 0⟩, s2.write_slot page_handle2 0 buf)
    else
      (.ok ⟨page_handle.page_no, slot_no⟩, s1.write_slot page_handle slot_no buf)

/-- Embedding of `RmFileHandle::insert_record(const Rid&, char*)`. -/
def insert_record_at (s : RmFileHandle) (rid : Rid) (buf : List UInt8) :
    Except RmError Unit × RmFileHandle :=
  match s.fetch_page_handle rid.page_no with
  | .error e => (.error e, s)
  | .ok page_handle =>
    if Bitmap.is_set (s.pages page_handle.page_no).bitmap rid.slot_no then
      (.error .SlotOccupied, s)
    else
      (.ok (), s.write_slot page_handle rid.slot_no buf)

/-- Embedding of `RmFileHandle::release_page_handle`. -/
def release_page_handle (s : RmFileHandle) (h : RmPageHandle) : RmFileHandle :=
  let pg := s.pages h.page_no
  if pg.page_hdr.num_records < s.file_hdr_.num_records_per_page then
    let pg1 : Page :=
      { pg with page_hdr :=
          { pg.page_hdr with next_free_page_no := s.file_hdr_.first_free_page_no } }
    let s1 := s.set_page h.page_no pg1
    { s1 with file_hdr_ := { s1.file_hdr_ with first_free_page_no := h.page_no } }
  else s

/-- Embedding of `RmFileHandle::delete_record`. -/
def delete_record (s : RmFileHandle) (rid : Rid) : Except RmError Unit × RmFileHandle :=
  match s.fetch_page_handle rid.page_no with
  | .error e => (.error e, s)
  | .ok page_handle =>
    let pg := s.pages page_handle.page_no
    let pg1 : Page := { pg with bitmap := Bitmap.reset pg.bitmap rid.slot_no }
    let pg2 : Page :=
      { pg1 with page_hdr := { pg1.page_hdr with num_records := pg1.page_hdr.num_records - 1 } }
    let s1 := s.set_page page_handle.page_no pg2
    if pg2.page_hdr.num_records < s1.file_hdr_.num_records_per_page then
      (.ok (), s1.release_page_handle page_handle)
    else
      (.ok (), s1)

/-- Embedding of `RmFileHandle::update_record`. On the typed view the copy changes only
the bytes of the slot, as in the code for `0 ≤ slot_no < num_records_per_page`;
`RawPage.update` is the same copy on the bytes of the page. -/
def update_record (s : RmFileHandle) (rid : Rid) (buf : List UInt8) :
    Except RmError Unit × RmFileHandle :=
  match s.fetch_page_handle rid.page_no with
  | .error e => (.error e, s)
  | .ok page_handle =>
    let pg := s.pages page_handle.page_no
    let pg1 : Page :=
      { pg with slots := fun i =>
          if i = rid.slot_no then memcpy (pg.slots rid.slot_no) buf s.file_hdr_.record_size
          else pg.slots i }
    (.ok (), s.set_page page_handle.page_no pg1)

end RmFileHandle

/-! ## Sequential scanner (`rm_scan.cpp`) -/

namespace RmScan

/-- Embedding of `RmScan::is_end`. -/
def is_end (rid_ : Rid) : Bool := rid_.page_no == RM_NO_PAGE

/-- The `while (true)` loop of `RmScan::next`, for at most `fuel` pages;
`none` when the fuel runs out. -/
def next_loop (fh : RmFileHandle) : Nat → Rid → Option (Except RmError Rid)
  | 0, _ => none
  | fuel + 1, rid_ =>
    match fh.fetch_page_handle rid_.page_no with
    | .error e => some (.error e)
    | .ok page_handle =>
      let total_slots := fh.file_hdr_.num_records_per_page
      let slot_no :=
        Bitmap.next_bit true (fh.pages page_handle.page_no).bitmap total_slots rid_.slot_no
      if slot_no < total_slots then some (.ok ⟨rid_.page_no, slot_no⟩)
      else if rid_.page_no + 1 ≥ (fh.file_hdr_.num_pages : Int) then some (.ok ⟨RM_NO_PAGE, -1⟩)
      else next_loop fh fuel ⟨rid_.page_no + 1, -1⟩

/-- Embedding of `RmScan::next`: the scanner position after the call. The loop is given one
iteration per page from the current one to the last. -/
def next (fh : RmFileHandle) (rid_ : Rid) : Option (Except RmError Rid) :=
  if is_end rid_ then some (.ok rid_)
  else next_loop fh (((fh.file_hdr_.num_pages : Int) - rid_.page_no).toNat + 1) rid_

/-- Embedding of `RmScan::RmScan`: the scanner position after construction. -/
def init (fh : RmFileHandle) : Option (Except RmError Rid) :=
  next fh ⟨RM_FIRST_RECORD_PAGE, -1⟩

/-- The Rids a client reads with `while (!scan.is_end()) { use scan.rid(); scan.next(); }`,
for at most `calls` calls of `next`. -/
def collect (fh : RmFileHandle) : Nat → Rid → Option (List Rid)
  | 0, _ => none
  | calls + 1, rid_ =>
    if is_end rid_ then some []
    else
      match next fh rid_ with
      | some (.ok r) => (collect fh calls r).map (fun l => rid_ :: l)
      | _ => none

/-- Full scan: construct the scanner and read Rids until `is_end()`. -/
def scan (fh : RmFileHandle) : Option (List Rid) :=
  match init fh with
  | some (.ok r) =>
    collect fh (fh.file_hdr_.num_pages * fh.file_hdr_.num_records_per_page.toNat + 1) r
  | _ => none

end RmScan

/-! ## Files, call sequences and the scenario of the spec -/

namespace RmFileHandle

/-- Modelled from the spec: the newly created file of the missing file manager, with no
data page, an empty free-page list and `bitmap_size = num_records_per_page`. The spec
does not give the page count a new file starts with; it is the parameter
`num_pages`. -/
def create_file_from (record_size : Nat) (num_records_per_page : Int) (num_pages : Nat) :
    RmFileHandle :=
  { file_hdr_ :=
      { record_size := record_size
        num_pages := num_pages
        num_records_per_page := num_records_per_page
        first_free_page_no := RM_NO_PAGE
        bitmap_size := num_records_per_page }
    pages := fun _ => Page.zeroed record_size }

/-- Modelled from the spec: the newly created file whose first allocated page is page 1,
the first data page, where the scenario of the spec places its first record. The page
cache numbers a new page with the page count (`num_pages` is the total of pages ever
allocated and page 0 is not a data page), so this is the file that starts with
`num_pages = 1`; the scanner of the source walks the pages `[1, num_pages)`. -/
def create_file (record_size : Nat) (num_records_per_page : Int) : RmFileHandle :=
  create_file_from record_size num_records_per_page 1

/-- The occupancy bit of `rid`. -/
def occupied (s : RmFileHandle) (rid : Rid) : Bool :=
  Bitmap.is_set (s.pages rid.page_no).bitmap rid.slot_no

/-- Page `p` is an allocated data page of the file. -/
def is_data_page (s : RmFileHandle) (p : Int) : Prop :=
  RM_FIRST_RECORD_PAGE ≤ p ∧ p < (s.file_hdr_.num_pages : Int)

instance (s : RmFileHandle) (p : Int) : Decidable (s.is_data_page p) := by
  unfold is_data_page; infer_instance

/-- Capacity invariant of page `p`: the record count is the number of set
bits in `[0, num_records_per_page)`. -/
def capacity_ok (s : RmFileHandle) (p : Int) : Prop :=
  (s.pages p).page_hdr.num_records
    = Bitmap.popcount (s.pages p).bitmap s.file_hdr_.num_records_per_page

instance (s : RmFileHandle) (p : Int) : Decidable (s.capacity_ok p) := by
  unfold capacity_ok; infer_instance

/-- The first `k` pages of the free-page list: follow `next_free_page_no` from
`p` until the sentinel. -/
def free_list_from (s : RmFileHandle) : Nat → Int → List Int
  | 0, _ => []
  | k + 1, p => if p = RM_NO_PAGE then [] else p :: free_list_from s k (s.pages p).page_hdr.next_free_page_no

/-- Page `p` is reachable from `first_free_page_no` through `next_free_page_no`
links. -/
def in_free_list (s : RmFileHandle) (p : Int) : Prop :=
  ∃ k, p ∈ s.free_list_from k s.file_hdr_.first_free_page_no

/-- One call of the public interface. -/
inductive Op where
  | insert (buf : List UInt8)
  | insert_at (rid : Rid) (buf : List UInt8)
  | delete (rid : Rid)
  | update (rid : Rid) (buf : List UInt8)

/-- State after one call (a call that raises leaves the state it returns). -/
def apply (s : RmFileHandle) : Op → RmFileHandle
  | .insert buf => (s.insert_record buf).2
  | .insert_at rid buf => (s.insert_record_at rid buf).2
  | .delete rid => (s.delete_record rid).2
  | .update rid buf => (s.update_record rid buf).2

/-- State after a sequence of calls. -/
def run (s : RmFileHandle) (ops : List Op) : RmFileHandle := ops.foldl apply s

end RmFileHandle

/-- A 16-byte record filled with the byte `c`. -/
def rec16 (c : UInt8) : List UInt8 := List.replicate 16 c

/-- Scenario of the spec: a new file with 4 slots per page and 16-byte
records, after inserting `A..E`. -/
def scenario_inserted : RmFileHandle :=
  (RmFileHandle.create_file 16 4).run
    [.insert (rec16 65), .insert (rec16 66), .insert (rec16 67), .insert (rec16 68),
     .insert (rec16 69)]

/-- Scenario of the spec after deleting `B`, the record at `(1, 1)`. -/
def scenario_deleted : RmFileHandle := (scenario_inserted.delete_record ⟨1, 1⟩).2

namespace RmFileHandle

/-- The page written by `write_slot`. -/
def written_page (s : RmFileHandle) (p : Int) (slot_no : Int) (buf : List UInt8) : Page :=
  { page_hdr := { next_free_page_no := (s.pages p).page_hdr.next_free_page_no
                  num_records := (s.pages p).page_hdr.num_records + 1 }
    bitmap := Bitmap.set (s.pages p).bitmap slot_no
    slots := fun i =>
      if i = slot_no then memcpy ((s.pages p).slots slot_no) buf s.file_hdr_.record_size
      else (s.pages p).slots i }

/-- The page, the slot and the state in which `insert_record(char*, Context*)`
reaches its write: the free-list head page (or the page just created when the
list is empty) with its first clear bit, or a newly created page with slot 0
when that page has no clear bit. -/
def insert_target (s : RmFileHandle) : RmFileHandle × RmPageHandle × Int :=
  if s.file_hdr_.first_free_page_no ≠ -1 then
    let k := find_free_slot (s.pages s.file_hdr_.first_free_page_no).bitmap s.file_hdr_.bitmap_size
    if k = -1 then (s.create_new_page_handle.2, s.create_new_page_handle.1, 0)
    else (s, ⟨s.file_hdr_.first_free_page_no⟩, k)
  else
    let s1 := s.create_new_page_handle.2
    let h1 := s.create_new_page_handle.1
    let k := find_free_slot (s1.pages h1.page_no).bitmap s1.file_hdr_.bitmap_size
    if k = -1 then (s1.create_new_page_handle.2, s1.create_new_page_handle.1, 0)
    else (s1, h1, k)

end RmFileHandle

/-- Strict lexicographic order on `(page_no, slot_no)`. -/
def Rid.lt (a b : Rid) : Prop :=
  a.page_no < b.page_no ∨ (a.page_no = b.page_no ∧ a.slot_no < b.slot_no)

instance (a b : Rid) : Decidable (Rid.lt a b) := by
  unfold Rid.lt; infer_instance

/-- The Rid `rid` names a slot of an allocated data page whose occupancy bit
is set. -/
def RmFileHandle.live (s : RmFileHandle) (rid : Rid) : Prop :=
  s.is_data_page rid.page_no ∧ 0 ≤ rid.slot_no
    ∧ rid.slot_no < s.file_hdr_.num_records_per_page ∧ s.occupied rid = true

instance (s : RmFileHandle) (rid : Rid) : Decidable (s.live rid) := by
  unfold RmFileHandle.live; infer_instance

/-- Number of slot positions from `rid` to the end of the file (0 at the end
position): a bound on the calls of `next` still needed. -/
def RmScan.rank (fh : RmFileHandle) (rid : Rid) : Nat :=
  if rid.page_no = RM_NO_PAGE then 0
  else (((fh.file_hdr_.num_pages : Int) - rid.page_no) * fh.file_hdr_.num_records_per_page
        + (fh.file_hdr_.num_records_per_page - rid.slot_no)).toNat

namespace RmFileHandle

/-- The calls a client may make when it respects the slot geometry: a positioned
insert and an update name a slot in `[0, num_records_per_page)`, a delete names such
a slot whose occupancy bit is set. -/
def admissible (s : RmFileHandle) : Op → Prop
  | .insert _ => True
  | .insert_at rid _ => 0 ≤ rid.slot_no ∧ rid.slot_no < s.file_hdr_.num_records_per_page
  | .delete rid =>
    0 ≤ rid.slot_no ∧ rid.slot_no < s.file_hdr_.num_records_per_page ∧ s.occupied rid = true
  | .update rid _ => 0 ≤ rid.slot_no ∧ rid.slot_no < s.file_hdr_.num_records_per_page

/-- Every call of the sequence is admissible in the state it is made in. -/
def admissible_run (s : RmFileHandle) : List Op → Prop
  | [] => True
  | op :: ops => s.admissible op ∧ admissible_run (s.apply op) ops

end RmFileHandle

namespace RmFileHandle

/-- Header geometry assumed by the capacity invariant: the bit vector covers
exactly the slots of a page and a page has at least one slot. -/
def geometry_ok (s : RmFileHandle) : Prop :=
  s.file_hdr_.bitmap_size = s.file_hdr_.num_records_per_page
    ∧ 0 < s.file_hdr_.num_records_per_page

end RmFileHandle

namespace RmFileHandle

instance admissible_decidable (s : RmFileHandle) : (op : Op) → Decidable (s.admissible op)
  | .insert _ => isTrue trivial
  | .insert_at rid _ =>
    inferInstanceAs
      (Decidable (0 ≤ rid.slot_no ∧ rid.slot_no < s.file_hdr_.num_records_per_page))
  | .delete rid =>
    inferInstanceAs
      (Decidable (0 ≤ rid.slot_no ∧ rid.slot_no < s.file_hdr_.num_records_per_page
        ∧ s.occupied rid = true))
  | .update rid _ =>
    inferInstanceAs
      (Decidable (0 ≤ rid.slot_no ∧ rid.slot_no < s.file_hdr_.num_records_per_page))

instance admissible_run_decidable :
    (ops : List Op) → (s : RmFileHandle) → Decidable (s.admissible_run ops)
  | [], _ => isTrue trivial
  | op :: ops, s =>
    @instDecidableAnd (s.admissible op) ((s.apply op).admissible_run ops)
      (admissible_decidable s op) (admissible_run_decidable ops (s.apply op))

end RmFileHandle

/-- The calls of the scenario of the spec (insert `A..E`, delete `B`, insert `F`),
followed by an update of `A` and a positioned insert on page 2. -/
def scenario_calls : List RmFileHandle.Op :=
  [.insert (rec16 65), .insert (rec16 66), .insert (rec16 67), .insert (rec16 68),
   .insert (rec16 69), .delete ⟨1, 1⟩, .insert (rec16 70), .update ⟨1, 0⟩ (rec16 97),
   .insert_at ⟨2, 1⟩ (rec16 71)]

/-- Scenario of the spec after deleting `B` and then `C`, the record at `(1, 2)`:
two deletes on page 1, the second on a page that was already non-full. -/
def scenario_deleted_twice : RmFileHandle := (scenario_deleted.delete_record ⟨1, 2⟩).2

/-- Scenario of the spec after deleting `B`, with two more records placed on page 2
by positioned inserts: page 1 (three records) heads the free-page list, page 2 (three
records) follows it. -/
def scenario_page2_filling : RmFileHandle :=
  scenario_deleted.run [.insert_at ⟨2, 1⟩ (rec16 71), .insert_at ⟨2, 2⟩ (rec16 72)]

namespace RmFileHandle

/-- The call does not name `rid`: it is an auto-assign insert, or a positioned
insert, delete or update of another Rid. -/
def Op.avoids (rid : Rid) : Op → Prop
  | .insert _ => True
  | .insert_at r _ => r ≠ rid
  | .delete r => r ≠ rid
  | .update r _ => r ≠ rid

instance Op.avoids_decidable (rid : Rid) : (op : Op) → Decidable (Op.avoids rid op)
  | .insert _ => isTrue trivial
  | .insert_at r _ => inferInstanceAs (Decidable (r ≠ rid))
  | .delete r => inferInstanceAs (Decidable (r ≠ rid))
  | .update r _ => inferInstanceAs (Decidable (r ≠ rid))

end RmFileHandle

/-- A file with 2 slots per page after insert `A`, delete `A`, insert `B`, insert `C`:
page 1 is full and `first_free_page_no` is 1. -/
def head_full_state : RmFileHandle :=
  (RmFileHandle.create_file 16 2).run
    [.insert (rec16 65), .delete ⟨1, 0⟩, .insert (rec16 66), .insert (rec16 67)]

namespace RmFileHandle

/-- The free-list head page exists and has a clear bit in
`[0, num_records_per_page)`. -/
def head_has_room (s : RmFileHandle) : Prop :=
  s.file_hdr_.first_free_page_no ≠ RM_NO_PAGE
    ∧ ∃ i, 0 ≤ i ∧ i < s.file_hdr_.num_records_per_page
        ∧ (s.pages s.file_hdr_.first_free_page_no).bitmap i = false

end RmFileHandle

/-- The calls that lead to `head_full_state`. -/
def head_full_calls : List RmFileHandle.Op :=
  [.insert (rec16 65), .delete ⟨1, 0⟩, .insert (rec16 66), .insert (rec16 67)]

namespace RmScan

/-- The scanner position after `k` further calls of `next()` from position `rid_`. -/
def next_n (fh : RmFileHandle) : Nat → Rid → Option (Except RmError Rid)
  | 0, rid_ => some (.ok rid_)
  | k + 1, rid_ =>
    match next fh rid_ with
    | some (.ok r) => next_n fh k r
    | other => other

/-- The scanner position after construction and `k` calls of `next()`. -/
def position (fh : RmFileHandle) (k : Nat) : Option (Except RmError Rid) :=
  match init fh with
  | some (.ok r) => next_n fh k r
  | other => other

/-- Number of set occupancy bits in `[0, num_records_per_page)` on the first `k` data
pages. -/
def count_pages (fh : RmFileHandle) : Nat → Nat
  | 0 => 0
  | k + 1 =>
    count_pages fh k
      + Bitmap.count_set (fh.pages (RM_FIRST_RECORD_PAGE + (k : Int))).bitmap
          fh.file_hdr_.num_records_per_page.toNat

/-- Number of set occupancy bits on the data pages of the file. -/
def occupied_count (fh : RmFileHandle) : Nat :=
  count_pages fh (fh.file_hdr_.num_pages - 1)

/-- The Rids of page `p` with a set bit among the first `m` slots. -/
def slots_of (bm : Int → Bool) (p : Int) : Nat → List Rid
  | 0 => []
  | m + 1 => slots_of bm p m ++ (if bm (m : Int) then [⟨p, (m : Int)⟩] else [])

/-- The Rids with a set bit on the first `k` data pages. -/
def rids_of (fh : RmFileHandle) : Nat → List Rid
  | 0 => []
  | k + 1 =>
    rids_of fh k
      ++ slots_of (fh.pages (RM_FIRST_RECORD_PAGE + (k : Int))).bitmap
          (RM_FIRST_RECORD_PAGE + (k : Int)) fh.file_hdr_.num_records_per_page.toNat

end RmScan

/-- A file with 4 slots per page after insert `A` and delete `A`. -/
def self_loop_state : RmFileHandle :=
  (RmFileHandle.create_file 16 4).run [.insert (rec16 65), .delete ⟨1, 0⟩]

namespace RmFileHandle

/-- The call names no slot outside `[0, n)`: it is an auto-assign insert, or a
positioned insert, delete or update of a Rid with `0 ≤ slot_no < n`. -/
def Op.slot_in_range (n : Int) : Op → Prop
  | .insert _ => True
  | .insert_at r _ => 0 ≤ r.slot_no ∧ r.slot_no < n
  | .delete r => 0 ≤ r.slot_no ∧ r.slot_no < n
  | .update r _ => 0 ≤ r.slot_no ∧ r.slot_no < n

instance Op.slot_in_range_decidable (n : Int) : (op : Op) → Decidable (Op.slot_in_range n op)
  | .insert _ => isTrue trivial
  | .insert_at r _ => inferInstanceAs (Decidable (0 ≤ r.slot_no ∧ r.slot_no < n))
  | .delete r => inferInstanceAs (Decidable (0 ≤ r.slot_no ∧ r.slot_no < n))
  | .update r _ => inferInstanceAs (Decidable (0 ≤ r.slot_no ∧ r.slot_no < n))

end RmFileHandle

/-- A file with 4 slots per page after four inserts, the delete of `(1, 0)` and a
positioned insert at `(1, 5)`: page 1 has `num_records = 4` while slot 0 is free. -/
def count_full_state : RmFileHandle :=
  (RmFileHandle.create_file 16 4).run
    [.insert (rec16 65), .insert (rec16 66), .insert (rec16 67), .insert (rec16 68),
     .delete ⟨1, 0⟩, .insert_at ⟨1, 5⟩ (rec16 69)]

/-- A file with 4 slots per page whose header has `bitmap_size = 1`, after slots 0 to 3
of page 1 were filled by one insert and three positioned inserts. -/
def narrow_bitmap_state : RmFileHandle :=
  ({ RmFileHandle.create_file 16 4 with
      file_hdr_ := { (RmFileHandle.create_file 16 4).file_hdr_ with bitmap_size := 1 } }
    : RmFileHandle).run
    [.insert (rec16 65), .insert_at ⟨1, 1⟩ (rec16 66), .insert_at ⟨1, 2⟩ (rec16 67),
     .insert_at ⟨1, 3⟩ (rec16 68)]

/-! ## Basic facts about the operations -/

namespace RmFileHandle

theorem fetch_page_handle_ok (s : RmFileHandle) (p : Int) (hp : p ≠ -1) :
    s.fetch_page_handle p = .ok ⟨p⟩ := by
  simp [fetch_page_handle, INVALID_PAGE_ID, hp]

theorem fetch_page_handle_invalid (s : RmFileHandle) :
    s.fetch_page_handle (-1) = .error (.PageNotExistError (-1)) := by
  simp [fetch_page_handle, INVALID_PAGE_ID]

@[simp] theorem set_page_file_hdr (s : RmFileHandle) (p : Int) (pg : Page) :
    (s.set_page p pg).file_hdr_ = s.file_hdr_ := rfl

@[simp] theorem set_page_pages_same (s : RmFileHandle) (p : Int) (pg : Page) :
    (s.set_page p pg).pages p = pg := by
  simp [set_page]

theorem set_page_pages_other (s : RmFileHandle) (p q : Int) (pg : Page) (h : q ≠ p) :
    (s.set_page p pg).pages q = s.pages q := by
  simp [set_page, h]

theorem write_slot_pages (s : RmFileHandle) (h : RmPageHandle) (k : Int) (buf : List UInt8) :
    (s.write_slot h k buf).pages
      = fun q => if q = h.page_no then s.written_page h.page_no k buf else s.pages q := by
  unfold write_slot
  simp only []
  split <;> rfl

theorem write_slot_pages_same (s : RmFileHandle) (h : RmPageHandle) (k : Int) (buf : List UInt8) :
    (s.write_slot h k buf).pages h.page_no = s.written_page h.page_no k buf := by
  rw [write_slot_pages]; simp

theorem write_slot_pages_mk (s : RmFileHandle) (p : Int) (k : Int) (buf : List UInt8) :
    (s.write_slot ⟨p⟩ k buf).pages p = s.written_page p k buf :=
  write_slot_pages_same s ⟨p⟩ k buf

theorem write_slot_pages_other (s : RmFileHandle) (h : RmPageHandle) (k : Int) (buf : List UInt8)
    (q : Int) (hq : q ≠ h.page_no) :
    (s.write_slot h k buf).pages q = s.pages q := by
  rw [write_slot_pages]; simp [hq]

theorem write_slot_file_hdr (s : RmFileHandle) (h : RmPageHandle) (k : Int) (buf : List UInt8) :
    (s.write_slot h k buf).file_hdr_
      = { s.file_hdr_ with
          first_free_page_no :=
            if (s.pages h.page_no).page_hdr.num_records + 1 = s.file_hdr_.num_records_per_page
            then (s.pages h.page_no).page_hdr.next_free_page_no
            else s.file_hdr_.first_free_page_no } := by
  unfold write_slot
  simp only []
  split <;> simp_all

theorem create_new_page_handle_fst (s : RmFileHandle) :
    s.create_new_page_handle.1 = ⟨(s.file_hdr_.num_pages : Int)⟩ := rfl

theorem create_new_page_handle_file_hdr (s : RmFileHandle) :
    s.create_new_page_handle.2.file_hdr_
      = { s.file_hdr_ with
          num_pages := s.file_hdr_.num_pages + 1
          first_free_page_no := (s.file_hdr_.num_pages : Int) } := rfl

theorem create_new_page_handle_pages (s : RmFileHandle) :
    s.create_new_page_handle.2.pages
      = fun q => if q = (s.file_hdr_.num_pages : Int) then
          { page_hdr := { next_free_page_no := -1, num_records := 0 }
            bitmap := fun _ => false
            slots := fun _ => List.replicate s.file_hdr_.record_size 0 }
        else s.pages q := by
  funext q
  simp [create_new_page_handle, new_page, set_page, Page.zeroed]
  split <;> rfl

theorem memcpy_take (dst src : List UInt8) (n : Nat) (h : src.length = n) :
    (memcpy dst src n).take n = src := by
  subst h
  simp [memcpy]

end RmFileHandle

namespace RmFileHandle

theorem insert_record_eq (s : RmFileHandle) (buf : List UInt8) :
    s.insert_record buf
      = (.ok ⟨s.insert_target.2.1.page_no, s.insert_target.2.2⟩,
         s.insert_target.1.write_slot s.insert_target.2.1 s.insert_target.2.2 buf) := by
  unfold insert_record create_page_handle insert_target
  by_cases hff : s.file_hdr_.first_free_page_no = -1
  · simp only [hff, ne_eq, not_true_eq_false, if_false]
    split <;> rfl
  · simp only [hff, ne_eq, not_false_eq_true, if_true, fetch_page_handle_ok _ _ hff]
    split <;> rfl

theorem find_free_slot_loop_spec (bm : Int → Bool) (fuel : Nat) (i : Int) :
    (find_free_slot_loop bm fuel i = -1 ∧ ∀ j, i ≤ j → j < i + fuel → bm j = true)
    ∨ (i ≤ find_free_slot_loop bm fuel i ∧ find_free_slot_loop bm fuel i < i + fuel
        ∧ bm (find_free_slot_loop bm fuel i) = false
        ∧ ∀ j, i ≤ j → j < find_free_slot_loop bm fuel i → bm j = true) := by
  induction fuel generalizing i with
  | zero =>
    left
    refine ⟨rfl, ?_⟩
    intro j h1 h2
    simp at h2
    omega
  | succ fuel ih =>
    unfold find_free_slot_loop
    by_cases hb : bm i = true
    · simp only [Bitmap.is_set, hb, Bool.not_true, Bool.false_eq_true, if_false]
      rcases ih (i + 1) with ⟨h1, h2⟩ | ⟨h1, h2, h3, h4⟩
      · left
        refine ⟨h1, ?_⟩
        intro j hj1 hj2
        by_cases hji : j = i
        · subst hji; exact hb
        · apply h2 j (by omega)
          push_cast at hj2
          omega
      · right
        refine ⟨by omega, by push_cast; omega, h3, ?_⟩
        intro j hj1 hj2
        by_cases hji : j = i
        · subst hji; exact hb
        · exact h4 j (by omega) hj2
    · have hb2 : bm i = false := by simpa using hb
      simp only [Bitmap.is_set, hb2, Bool.not_false, if_true]
      right
      refine ⟨le_refl _, by push_cast; omega, by simp, ?_⟩
      intro j hj1 hj2
      omega

end RmFileHandle

namespace RmFileHandle

theorem insert_target_page_ne (s : RmFileHandle) : s.insert_target.2.1.page_no ≠ -1 := by
  unfold insert_target
  by_cases hff : s.file_hdr_.first_free_page_no = -1
  · simp only [hff, ne_eq, not_true_eq_false, if_false]
    split <;> simp [create_new_page_handle_fst]
  · simp only [hff, ne_eq, not_false_eq_true, if_true]
    split
    · simp [create_new_page_handle_fst]
    · exact hff

theorem insert_target_hdr (s : RmFileHandle) :
    s.insert_target.1.file_hdr_.record_size = s.file_hdr_.record_size
    ∧ s.insert_target.1.file_hdr_.num_records_per_page = s.file_hdr_.num_records_per_page
    ∧ s.insert_target.1.file_hdr_.bitmap_size = s.file_hdr_.bitmap_size := by
  unfold insert_target
  by_cases hff : s.file_hdr_.first_free_page_no = -1
  · simp only [hff, ne_eq, not_true_eq_false, if_false]
    split <;> simp [create_new_page_handle_file_hdr]
  · simp only [hff, ne_eq, not_false_eq_true, if_true]
    split <;> simp [create_new_page_handle_file_hdr]

theorem get_record_write_slot (s : RmFileHandle) (h : RmPageHandle) (k : Int) (buf : List UInt8)
    (hp : h.page_no ≠ -1) (hlen : buf.length = s.file_hdr_.record_size) :
    (s.write_slot h k buf).get_record ⟨h.page_no, k⟩
      = .ok { size := s.file_hdr_.record_size, data := buf } := by
  simp [get_record, fetch_page_handle_ok _ _ hp, get_slot, write_slot_pages_same, written_page,
    write_slot_file_hdr, memcpy_take _ _ _ hlen]

end RmFileHandle

/-! ## Scanner -/

theorem Bitmap.next_bit_loop_spec (bm : Int → Bool) (max_n : Int) (fuel : Nat) (i : Int) :
    (Bitmap.next_bit_loop true bm max_n fuel i = max_n
        ∧ ∀ j, i ≤ j → j < i + fuel → bm j = false)
    ∨ (i ≤ Bitmap.next_bit_loop true bm max_n fuel i
        ∧ Bitmap.next_bit_loop true bm max_n fuel i < i + fuel
        ∧ bm (Bitmap.next_bit_loop true bm max_n fuel i) = true
        ∧ ∀ j, i ≤ j → j < Bitmap.next_bit_loop true bm max_n fuel i → bm j = false) := by
  induction fuel generalizing i with
  | zero =>
    left
    refine ⟨rfl, ?_⟩
    intro j h1 h2
    simp at h2
    omega
  | succ fuel ih =>
    unfold Bitmap.next_bit_loop
    by_cases hb : bm i = true
    · simp only [Bitmap.is_set, hb, beq_self_eq_true, if_true]
      right
      refine ⟨le_refl _, by push_cast; omega, by simp, ?_⟩
      intro j hj1 hj2
      omega
    · have hb2 : bm i = false := by simpa using hb
      have hne : (Bitmap.is_set bm i == true) = false := by simp [Bitmap.is_set, hb2]
      simp only [hne, Bool.false_eq_true, if_false]
      rcases ih (i + 1) with ⟨h1, h2⟩ | ⟨h1, h2, h3, h4⟩
      · left
        refine ⟨h1, ?_⟩
        intro j hj1 hj2
        by_cases hji : j = i
        · subst hji; exact hb2
        · apply h2 j (by omega)
          push_cast at hj2
          omega
      · right
        refine ⟨by omega, by push_cast; omega, h3, ?_⟩
        intro j hj1 hj2
        by_cases hji : j = i
        · subst hji; exact hb2
        · exact h4 j (by omega) hj2

theorem Bitmap.next_bit_spec (bm : Int → Bool) (n sl : Int) :
    (Bitmap.next_bit true bm n sl = n ∧ ∀ j, sl < j → j < n → bm j = false)
    ∨ (sl < Bitmap.next_bit true bm n sl ∧ Bitmap.next_bit true bm n sl < n
        ∧ bm (Bitmap.next_bit true bm n sl) = true
        ∧ ∀ j, sl < j → j < Bitmap.next_bit true bm n sl → bm j = false) := by
  unfold Bitmap.next_bit
  rcases Bitmap.next_bit_loop_spec bm n (n - (sl + 1)).toNat (sl + 1) with ⟨h1, h2⟩ | ⟨h1, h2, h3, h4⟩
  · left
    refine ⟨h1, ?_⟩
    intro j hj1 hj2
    apply h2 j (by omega)
    omega
  · right
    refine ⟨by omega, by omega, h3, ?_⟩
    intro j hj1 hj2
    exact h4 j (by omega) hj2

namespace RmScan

theorem next_loop_spec (fh : RmFileHandle) (fuel : Nat) (r : Rid)
    (hp1 : 1 ≤ r.page_no)
    (hfuel : ((fh.file_hdr_.num_pages : Int) - r.page_no).toNat < fuel)
    (hsl : -1 ≤ r.slot_no)
    (hpage : r.page_no < (fh.file_hdr_.num_pages : Int)
      ∨ ∀ i, 0 ≤ i → i < fh.file_hdr_.num_records_per_page →
          (fh.pages r.page_no).bitmap i = false) :
    ∃ r2, next_loop fh fuel r = some (.ok r2)
      ∧ ((r2 = ⟨RM_NO_PAGE, -1⟩ ∧ ∀ q, fh.live q → ¬ Rid.lt r q)
         ∨ (fh.live r2 ∧ Rid.lt r r2 ∧ ∀ q, fh.live q → Rid.lt r q → ¬ Rid.lt q r2)) := by
  induction fuel generalizing r with
  | zero => omega
  | succ fuel ih =>
    obtain ⟨p, sl⟩ := r
    simp only at hp1 hfuel hsl hpage
    have hne : p ≠ -1 := by omega
    unfold next_loop
    rw [RmFileHandle.fetch_page_handle_ok fh p hne]
    simp only []
    rcases Bitmap.next_bit_spec (fh.pages p).bitmap fh.file_hdr_.num_records_per_page sl
      with ⟨h1, h2⟩ | ⟨h1, h2, h3, h4⟩
    · rw [h1]
      simp only [lt_self_iff_false, if_false]
      by_cases hlast : p + 1 ≥ (fh.file_hdr_.num_pages : Int)
      · simp only [hlast, if_true]
        refine ⟨_, rfl, Or.inl ⟨rfl, ?_⟩⟩
        intro q hq hlt
        obtain ⟨⟨hq1, hq2⟩, hq3, hq4, hq5⟩ := hq
        rcases hlt with hlt | ⟨hlt1, hlt2⟩
        · simp only at hlt; omega
        · simp only at hlt1 hlt2
          have := h2 q.slot_no hlt2 hq4
          simp [RmFileHandle.occupied, Bitmap.is_set, ← hlt1, this] at hq5
      · simp only [hlast, if_false]
        have hlast2 : p + 1 < (fh.file_hdr_.num_pages : Int) := by omega
        obtain ⟨r2, hr2, hcase⟩ := ih ⟨p + 1, -1⟩ (by simp only; omega) (by simp only; omega)
          (by simp) (Or.inl hlast2)
        refine ⟨r2, hr2, ?_⟩
        have key : ∀ q, fh.live q → (Rid.lt ⟨p, sl⟩ q ↔ Rid.lt ⟨p + 1, -1⟩ q) := by
          intro q hq
          obtain ⟨⟨hq1, hq2⟩, hq3, hq4, hq5⟩ := hq
          constructor
          · intro hlt
            rcases hlt with hlt | ⟨hlt1, hlt2⟩
            · simp only at hlt
              by_cases hqp : q.page_no = p + 1
              · right; exact ⟨hqp.symm, by simp only; omega⟩
              · left; simp only; omega
            · simp only at hlt1 hlt2
              have := h2 q.slot_no hlt2 hq4
              simp [RmFileHandle.occupied, Bitmap.is_set, ← hlt1, this] at hq5
          · intro hlt
            rcases hlt with hlt | ⟨hlt1, hlt2⟩
            · left; simp only at hlt ⊢; omega
            · left; simp only at hlt1 ⊢; omega
        rcases hcase with ⟨he, hnone⟩ | ⟨hlive, hlt, hmin⟩
        · left
          refine ⟨he, ?_⟩
          intro q hq hlt
          exact hnone q hq ((key q hq).1 hlt)
        · right
          refine ⟨hlive, (key r2 hlive).2 hlt, ?_⟩
          intro q hq hlt2
          exact hmin q hq ((key q hq).1 hlt2)
    · simp only [h2, if_true]
      refine ⟨_, rfl, Or.inr ⟨?_, ?_, ?_⟩⟩
      · have hpN : p < (fh.file_hdr_.num_pages : Int) := by
          rcases hpage with hpage | hpage
          · exact hpage
          · have := hpage _ (by omega) h2
            rw [this] at h3
            exact absurd h3 (by simp)
        exact ⟨⟨hp1, hpN⟩, by simp only; omega, h2, h3⟩
      · right; exact ⟨rfl, h1⟩
      · intro q hq hlt hlt2
        rcases hlt with hlt | ⟨hlt1, hlt2a⟩ <;> rcases hlt2 with hlt2 | ⟨hlt3, hlt4⟩
        · simp only at hlt hlt2; omega
        · simp only at hlt hlt3; omega
        · simp only at hlt1 hlt2; omega
        · simp only at hlt1 hlt2a hlt3 hlt4
          have := h4 q.slot_no hlt2a hlt4
          obtain ⟨_, _, _, hq5⟩ := hq
          simp [RmFileHandle.occupied, Bitmap.is_set, ← hlt1, this] at hq5

end RmScan

namespace RmScan

theorem rank_end (fh : RmFileHandle) : rank fh ⟨RM_NO_PAGE, -1⟩ = 0 := by
  simp [rank]

theorem rank_live (fh : RmFileHandle) (r : Rid) (hr : fh.live r) :
    (rank fh r : Int)
      = ((fh.file_hdr_.num_pages : Int) - r.page_no) * fh.file_hdr_.num_records_per_page
        + (fh.file_hdr_.num_records_per_page - r.slot_no)
    ∧ 0 < rank fh r := by
  obtain ⟨⟨h1, h2⟩, h3, h4, _⟩ := hr
  simp only [RM_FIRST_RECORD_PAGE] at h1
  have hne : r.page_no ≠ RM_NO_PAGE := by simp only [RM_NO_PAGE]; omega
  have hprod : 0 ≤ ((fh.file_hdr_.num_pages : Int) - r.page_no)
      * fh.file_hdr_.num_records_per_page :=
    mul_nonneg (by omega) (by omega)
  simp only [rank, hne, if_false]
  constructor
  · rw [Int.toNat_of_nonneg (by omega)]
  · omega

theorem rank_lt (fh : RmFileHandle) (r r2 : Rid) (hr : fh.live r) (hr2 : fh.live r2)
    (hlt : Rid.lt r r2) : rank fh r2 < rank fh r := by
  have e1 := (rank_live fh r hr).1
  have e2 := (rank_live fh r2 hr2).1
  obtain ⟨⟨h1, h2⟩, h3, h4, _⟩ := hr
  obtain ⟨⟨k1, k2⟩, k3, k4, _⟩ := hr2
  have goal : (rank fh r2 : Int) < (rank fh r : Int) := by
    rw [e1, e2]
    rcases hlt with hlt | ⟨hlt1, hlt2⟩
    · have hmul : ((fh.file_hdr_.num_pages : Int) - r2.page_no)
            * fh.file_hdr_.num_records_per_page
          ≤ ((fh.file_hdr_.num_pages : Int) - r.page_no - 1)
            * fh.file_hdr_.num_records_per_page :=
        mul_le_mul_of_nonneg_right (by omega) (by omega)
      have hexp : ((fh.file_hdr_.num_pages : Int) - r.page_no - 1)
            * fh.file_hdr_.num_records_per_page
          = ((fh.file_hdr_.num_pages : Int) - r.page_no) * fh.file_hdr_.num_records_per_page
            - fh.file_hdr_.num_records_per_page := by ring
      omega
    · rw [hlt1]
      omega
  exact_mod_cast goal

theorem rank_le (fh : RmFileHandle) (r : Rid) (hr : fh.live r) :
    rank fh r < fh.file_hdr_.num_pages * fh.file_hdr_.num_records_per_page.toNat + 1 := by
  have e1 := (rank_live fh r hr).1
  obtain ⟨⟨h1, h2⟩, h3, h4, _⟩ := hr
  simp only [RM_FIRST_RECORD_PAGE] at h1
  have hmul : ((fh.file_hdr_.num_pages : Int) - r.page_no) * fh.file_hdr_.num_records_per_page
      ≤ ((fh.file_hdr_.num_pages : Int) - 1) * fh.file_hdr_.num_records_per_page :=
    mul_le_mul_of_nonneg_right (by omega) (by omega)
  have hexp : ((fh.file_hdr_.num_pages : Int) - 1) * fh.file_hdr_.num_records_per_page
      = (fh.file_hdr_.num_pages : Int) * fh.file_hdr_.num_records_per_page
        - fh.file_hdr_.num_records_per_page := by ring
  have goal : (rank fh r : Int)
      < ((fh.file_hdr_.num_pages * fh.file_hdr_.num_records_per_page.toNat + 1 : Nat) : Int) := by
    push_cast
    rw [Int.toNat_of_nonneg (by omega), e1]
    omega
  exact_mod_cast goal

theorem next_spec (fh : RmFileHandle) (r : Rid)
    (hp1 : 1 ≤ r.page_no) (hsl : -1 ≤ r.slot_no)
    (hpage : r.page_no < (fh.file_hdr_.num_pages : Int)
      ∨ ∀ i, 0 ≤ i → i < fh.file_hdr_.num_records_per_page →
          (fh.pages r.page_no).bitmap i = false) :
    ∃ r2, next fh r = some (.ok r2)
      ∧ ((r2 = ⟨RM_NO_PAGE, -1⟩ ∧ ∀ q, fh.live q → ¬ Rid.lt r q)
         ∨ (fh.live r2 ∧ Rid.lt r r2 ∧ ∀ q, fh.live q → Rid.lt r q → ¬ Rid.lt q r2)) := by
  have hne : is_end r = false := by
    simp only [is_end, RM_NO_PAGE, beq_eq_false_iff_ne, ne_eq]
    omega
  unfold next
  simp only [hne, Bool.false_eq_true, if_false]
  exact next_loop_spec fh _ r hp1 (by omega) hsl hpage

theorem Rid_lt_trans (a b c : Rid) (h1 : Rid.lt a b) (h2 : Rid.lt b c) : Rid.lt a c := by
  unfold Rid.lt at *
  omega

theorem Rid_lt_irrefl (a : Rid) : ¬ Rid.lt a a := by
  unfold Rid.lt
  omega

theorem Rid_lt_total (a b : Rid) : Rid.lt a b ∨ a = b ∨ Rid.lt b a := by
  obtain ⟨p, s⟩ := a
  obtain ⟨p2, s2⟩ := b
  simp only [Rid.lt, Rid.mk.injEq]
  omega

theorem collect_spec (fh : RmFileHandle) (calls : Nat) (r : Rid) (hr : fh.live r)
    (hcalls : rank fh r < calls) :
    ∃ L, collect fh calls r = some L ∧ L.Pairwise Rid.lt
      ∧ ∀ q, q ∈ L ↔ (fh.live q ∧ (q = r ∨ Rid.lt r q)) := by
  induction calls generalizing r with
  | zero => omega
  | succ calls ih =>
    have hr0 := hr
    obtain ⟨⟨h1, h2⟩, h3, h4, h5⟩ := hr
    simp only [RM_FIRST_RECORD_PAGE] at h1
    have hne : is_end r = false := by
      simp only [is_end, RM_NO_PAGE, beq_eq_false_iff_ne, ne_eq]
      omega
    obtain ⟨r2, hnext, hcase⟩ := next_spec fh r h1 (by omega) (Or.inl h2)
    unfold collect
    simp only [hne, Bool.false_eq_true, if_false, hnext]
    rcases hcase with ⟨he, hnone⟩ | ⟨hlive, hlt, hmin⟩
    · have hpos := (rank_live fh r hr0).2
      obtain ⟨c, hc⟩ : ∃ c, calls = c + 1 := ⟨calls - 1, by omega⟩
      subst hc
      subst he
      refine ⟨[r], ?_, by simp, ?_⟩
      · simp [collect, is_end]
      · intro q
        simp only [List.mem_singleton]
        constructor
        · intro hq; subst hq; exact ⟨hr0, Or.inl rfl⟩
        · rintro ⟨hq, hq2 | hq2⟩
          · exact hq2
          · exact absurd hq2 (hnone q hq)
    · have hrk := rank_lt fh r r2 hr0 hlive hlt
      obtain ⟨L, hL, hsorted, hmem⟩ := ih r2 hlive (by omega)
      refine ⟨r :: L, by simp [hL], ?_, ?_⟩
      · rw [List.pairwise_cons]
        refine ⟨?_, hsorted⟩
        intro q hq
        rcases ((hmem q).1 hq).2 with hq2 | hq2
        · subst hq2; exact hlt
        · exact Rid_lt_trans _ _ _ hlt hq2
      · intro q
        rw [List.mem_cons, hmem]
        constructor
        · rintro (hq | ⟨hq, hq2⟩)
          · subst hq; exact ⟨hr0, Or.inl rfl⟩
          · refine ⟨hq, Or.inr ?_⟩
            rcases hq2 with hq2 | hq2
            · subst hq2; exact hlt
            · exact Rid_lt_trans _ _ _ hlt hq2
        · rintro ⟨hq, hq2 | hq2⟩
          · exact Or.inl hq2
          · right
            refine ⟨hq, ?_⟩
            rcases Rid_lt_total q r2 with h | h | h
            · exact absurd h (hmin q hq hq2)
            · exact Or.inl h
            · exact Or.inr h

end RmScan

theorem RmScan.start_lt_live (fh : RmFileHandle) (q : Rid) (hq : fh.live q) :
    Rid.lt ⟨RM_FIRST_RECORD_PAGE, -1⟩ q := by
  obtain ⟨⟨h1, h2⟩, h3, h4, _⟩ := hq
  simp only [RM_FIRST_RECORD_PAGE] at h1
  by_cases hp : q.page_no = 1
  · right; simp only [RM_FIRST_RECORD_PAGE]; omega
  · left; simp only [RM_FIRST_RECORD_PAGE]; omega

theorem RmScan.live_not_end (fh : RmFileHandle) (q : Rid) (hq : fh.live q) :
    RmScan.is_end q = false := by
  obtain ⟨⟨h1, h2⟩, h3, h4, _⟩ := hq
  simp only [RM_FIRST_RECORD_PAGE] at h1
  simp only [RmScan.is_end, RM_NO_PAGE, beq_eq_false_iff_ne, ne_eq]
  omega

/-- C2 (scan completeness and order): in every state in which the first data page
is allocated or, when the file has no data page yet, the cached page 1 holds no
occupancy bit, the full scan returns a list of Rids that is strictly ascending in
lexicographic `(page_no, slot_no)` order, has no repetition, and contains exactly the
Rids of allocated data pages with a slot in `[0, num_records_per_page)` whose occupancy
bit is set; and whenever `next()` from the start position or a scanned Rid reaches
`is_end()`, no set occupancy bit lies after that position on any data page, the last
one included. -/
theorem scan_complete_and_ordered (fh : RmFileHandle)
    (hfirst : RM_FIRST_RECORD_PAGE < (fh.file_hdr_.num_pages : Int)
      ∨ ∀ i, 0 ≤ i → i < fh.file_hdr_.num_records_per_page →
          (fh.pages RM_FIRST_RECORD_PAGE).bitmap i = false) :
    ∃ L, RmScan.scan fh = some L
      ∧ L.Pairwise Rid.lt ∧ L.Nodup
      ∧ (∀ q, q ∈ L ↔ fh.live q)
      ∧ (∀ r, (r = ⟨RM_FIRST_RECORD_PAGE, -1⟩ ∨ r ∈ L) →
          ∀ e, RmScan.next fh r = some (.ok e) → RmScan.is_end e = true →
            ∀ q, fh.live q → ¬ Rid.lt r q) := by
  have hstart := RmScan.next_spec fh ⟨RM_FIRST_RECORD_PAGE, -1⟩
    (by simp [RM_FIRST_RECORD_PAGE]) (by simp) hfirst
  have hend : ∀ r, (r = ⟨RM_FIRST_RECORD_PAGE, -1⟩ ∨ fh.live r) →
      ∀ e, RmScan.next fh r = some (.ok e) → RmScan.is_end e = true →
        ∀ q, fh.live q → ¬ Rid.lt r q := by
    intro r hr e he hee
    have hspec : ∃ r2, RmScan.next fh r = some (.ok r2)
        ∧ ((r2 = ⟨RM_NO_PAGE, -1⟩ ∧ ∀ q, fh.live q → ¬ Rid.lt r q)
           ∨ (fh.live r2 ∧ Rid.lt r r2 ∧ ∀ q, fh.live q → Rid.lt r q → ¬ Rid.lt q r2)) := by
      rcases hr with hr | hr
      · subst hr; exact hstart
      · obtain ⟨⟨h1, h2⟩, h3, h4, _⟩ := hr
        exact RmScan.next_spec fh r h1 (by omega) (Or.inl h2)
    obtain ⟨r2, hr2, hcase⟩ := hspec
    rw [he] at hr2
    have heq : e = r2 := by simpa using hr2
    subst heq
    rcases hcase with ⟨_, hnone⟩ | ⟨hlive, _, _⟩
    · exact hnone
    · rw [RmScan.live_not_end fh e hlive] at hee
      exact absurd hee (by simp)
  obtain ⟨r0, hr0, hcase⟩ := hstart
  have hnodup : ∀ L : List Rid, L.Pairwise Rid.lt → L.Nodup := by
    intro L hL
    refine List.Pairwise.imp ?_ hL
    intro a b hab heq
    subst heq
    exact RmScan.Rid_lt_irrefl a hab
  rcases hcase with ⟨he, hnone⟩ | ⟨hlive, hlt, hmin⟩
  · subst he
    refine ⟨[], ?_, List.Pairwise.nil, List.nodup_nil, ?_, ?_⟩
    · simp [RmScan.scan, RmScan.init, hr0, RmScan.collect, RmScan.is_end]
    · intro q
      simp only [List.not_mem_nil, false_iff]
      intro hq
      exact hnone q hq (RmScan.start_lt_live fh q hq)
    · intro r hr
      rcases hr with hr | hr
      · exact hend r (Or.inl hr)
      · simp at hr
  · obtain ⟨L, hL, hsorted, hmem⟩ := RmScan.collect_spec fh _ r0 hlive (RmScan.rank_le fh r0 hlive)
    have hmem2 : ∀ q, q ∈ L ↔ fh.live q := by
      intro q
      rw [hmem]
      constructor
      · exact fun h => h.1
      · intro hq
        refine ⟨hq, ?_⟩
        rcases RmScan.Rid_lt_total q r0 with h | h | h
        · exact absurd h (hmin q hq (RmScan.start_lt_live fh q hq))
        · exact Or.inl h
        · exact Or.inr h
    refine ⟨L, ?_, hsorted, hnodup L hsorted, hmem2, ?_⟩
    · simp [RmScan.scan, RmScan.init, hr0, hL]
    · intro r hr
      rcases hr with hr | hr
      · exact hend r (Or.inl hr)
      · exact hend r (Or.inr ((hmem2 r).1 hr))

/-- Witness for C2 on the scenario of the spec (`A..E` inserted with 4 slots per page,
then `B` deleted): the scan yields the Rids of `A`, `C`, `D`, `E`, in that order. -/
theorem scan_complete_and_ordered_witness :
    (∃ L, RmScan.scan scenario_deleted = some L
      ∧ L.Pairwise Rid.lt ∧ L.Nodup
      ∧ (∀ q, q ∈ L ↔ scenario_deleted.live q)
      ∧ (∀ r, (r = ⟨RM_FIRST_RECORD_PAGE, -1⟩ ∨ r ∈ L) →
          ∀ e, RmScan.next scenario_deleted r = some (.ok e) → RmScan.is_end e = true →
            ∀ q, scenario_deleted.live q → ¬ Rid.lt r q))
    ∧ RmScan.scan scenario_deleted = some [⟨1, 0⟩, ⟨1, 2⟩, ⟨1, 3⟩, ⟨2, 0⟩]
    ∧ scenario_inserted.get_record ⟨1, 0⟩ = .ok ⟨16, rec16 65⟩
    ∧ scenario_inserted.get_record ⟨1, 1⟩ = .ok ⟨16, rec16 66⟩
    ∧ scenario_deleted.get_record ⟨1, 2⟩ = .ok ⟨16, rec16 67⟩
    ∧ scenario_deleted.get_record ⟨1, 3⟩ = .ok ⟨16, rec16 68⟩
    ∧ scenario_deleted.get_record ⟨2, 0⟩ = .ok ⟨16, rec16 69⟩ :=
  ⟨scan_complete_and_ordered scenario_deleted (Or.inl (by decide)), by decide,
    rfl, rfl, rfl, rfl, rfl⟩

/-! ## Capacity invariant -/

theorem Bitmap.count_set_zeroed (m : Nat) : Bitmap.count_set (fun _ => false) m = 0 := by
  induction m with
  | zero => rfl
  | succ m ih => simp [Bitmap.count_set, ih]

theorem Bitmap.count_set_set (bm : Int → Bool) (j : Nat) (hclear : bm (j : Int) = false)
    (m : Nat) :
    Bitmap.count_set (Bitmap.set bm (j : Int)) m
      = Bitmap.count_set bm m + (if j < m then 1 else 0) := by
  induction m with
  | zero => simp [Bitmap.count_set]
  | succ m ih =>
    simp only [Bitmap.count_set, ih, Bitmap.set, Nat.cast_inj]
    rcases Nat.lt_trichotomy m j with h | h | h
    · have h1 : ¬ j < m := by omega
      have h2 : ¬ j < m + 1 := by omega
      have h3 : ¬ m = j := by omega
      simp only [h1, h2, h3, if_false]
      omega
    · subst h
      have h1 : ¬ m < m := by omega
      have h2 : m < m + 1 := by omega
      simp only [h1, h2, if_false, if_true, hclear]
      simp
    · have h1 : j < m := h
      have h2 : j < m + 1 := by omega
      have h3 : ¬ m = j := by omega
      simp only [h1, h2, h3, if_false, if_true]
      omega

theorem Bitmap.count_set_reset (bm : Int → Bool) (j : Nat) (hset : bm (j : Int) = true)
    (m : Nat) :
    Bitmap.count_set (Bitmap.reset bm (j : Int)) m + (if j < m then 1 else 0)
      = Bitmap.count_set bm m := by
  induction m with
  | zero => simp [Bitmap.count_set]
  | succ m ih =>
    simp only [Bitmap.count_set, Bitmap.reset, Nat.cast_inj]
    rcases Nat.lt_trichotomy m j with h | h | h
    · have h1 : ¬ j < m := by omega
      have h2 : ¬ j < m + 1 := by omega
      have h3 : ¬ m = j := by omega
      simp only [h1, if_false, Nat.add_zero] at ih
      simp only [h2, h3, if_false, Nat.add_zero]
      rw [← ih]
    · subst h
      have h1 : ¬ m < m := by omega
      have h2 : m < m + 1 := by omega
      simp only [h1, if_false, Nat.add_zero] at ih
      simp only [h2, if_true, hset]
      rw [← ih]
      simp [Bitmap.reset]
    · have h1 : j < m := h
      have h2 : j < m + 1 := by omega
      have h3 : ¬ m = j := by omega
      simp only [h1, if_true] at ih
      simp only [h2, h3, if_false, if_true]
      rw [← ih]
      omega

theorem Bitmap.popcount_set (bm : Int → Bool) (n k : Int) (hk : 0 ≤ k) (hkn : k < n)
    (hclear : bm k = false) :
    Bitmap.popcount (Bitmap.set bm k) n = Bitmap.popcount bm n + 1 := by
  obtain ⟨j, rfl⟩ := Int.eq_ofNat_of_zero_le hk
  have hlt : j < n.toNat := by omega
  simp only [Bitmap.popcount, Bitmap.count_set_set bm j hclear, hlt, if_true]
  push_cast
  rfl

theorem Bitmap.popcount_reset (bm : Int → Bool) (n k : Int) (hk : 0 ≤ k) (hkn : k < n)
    (hset : bm k = true) :
    Bitmap.popcount (Bitmap.reset bm k) n = Bitmap.popcount bm n - 1 := by
  obtain ⟨j, rfl⟩ := Int.eq_ofNat_of_zero_le hk
  have hlt : j < n.toNat := by omega
  have h := Bitmap.count_set_reset bm j hset n.toNat
  simp only [hlt, if_true] at h
  simp only [Bitmap.popcount, ← h]
  push_cast
  omega

theorem Bitmap.popcount_zeroed (n : Int) : Bitmap.popcount (fun _ => false) n = 0 := by
  simp [Bitmap.popcount, Bitmap.count_set_zeroed]

namespace RmFileHandle

theorem delete_record_error (s : RmFileHandle) (rid : Rid) (hp : rid.page_no = -1) :
    s.delete_record rid = (.error (.PageNotExistError (-1)), s) := by
  simp [delete_record, hp, fetch_page_handle_invalid]

theorem delete_record_fst (s : RmFileHandle) (rid : Rid) (hp : rid.page_no ≠ -1) :
    (s.delete_record rid).1 = .ok () := by
  unfold delete_record
  rw [fetch_page_handle_ok s _ hp]
  simp only []
  split <;> rfl

theorem delete_record_pages (s : RmFileHandle) (rid : Rid) (hp : rid.page_no ≠ -1) (q : Int) :
    (s.delete_record rid).2.pages q
      = if q = rid.page_no then
          { page_hdr :=
              { next_free_page_no :=
                  if (s.pages rid.page_no).page_hdr.num_records - 1
                      < s.file_hdr_.num_records_per_page
                  then s.file_hdr_.first_free_page_no
                  else (s.pages rid.page_no).page_hdr.next_free_page_no
                num_records := (s.pages rid.page_no).page_hdr.num_records - 1 }
            bitmap := Bitmap.reset (s.pages rid.page_no).bitmap rid.slot_no
            slots := (s.pages rid.page_no).slots }
        else s.pages q := by
  unfold delete_record
  rw [fetch_page_handle_ok s _ hp]
  simp only [set_page_file_hdr]
  by_cases hc : (s.pages rid.page_no).page_hdr.num_records - 1 < s.file_hdr_.num_records_per_page
  · simp only [hc, if_true, release_page_handle, set_page_pages_same, set_page_file_hdr]
    by_cases hq : q = rid.page_no
    · subst hq; simp [set_page]
    · simp [set_page, hq]
  · simp only [hc, if_false]
    by_cases hq : q = rid.page_no
    · subst hq; simp [set_page]
    · simp [set_page, hq]

theorem delete_record_file_hdr (s : RmFileHandle) (rid : Rid) (hp : rid.page_no ≠ -1) :
    (s.delete_record rid).2.file_hdr_
      = { s.file_hdr_ with
          first_free_page_no :=
            if (s.pages rid.page_no).page_hdr.num_records - 1
                < s.file_hdr_.num_records_per_page
            then rid.page_no
            else s.file_hdr_.first_free_page_no } := by
  unfold delete_record
  rw [fetch_page_handle_ok s _ hp]
  simp only [set_page_file_hdr]
  by_cases hc : (s.pages rid.page_no).page_hdr.num_records - 1 < s.file_hdr_.num_records_per_page
  · simp [hc, release_page_handle]
  · simp [hc]

theorem update_record_error (s : RmFileHandle) (rid : Rid) (buf : List UInt8)
    (hp : rid.page_no = -1) :
    s.update_record rid buf = (.error (.PageNotExistError (-1)), s) := by
  simp [update_record, hp, fetch_page_handle_invalid]

theorem update_record_ok (s : RmFileHandle) (rid : Rid) (buf : List UInt8)
    (hp : rid.page_no ≠ -1) :
    s.update_record rid buf
      = (.ok (), s.set_page rid.page_no
          { (s.pages rid.page_no) with
            slots := fun i =>
              if i = rid.slot_no then
                memcpy ((s.pages rid.page_no).slots rid.slot_no) buf s.file_hdr_.record_size
              else (s.pages rid.page_no).slots i }) := by
  unfold update_record
  rw [fetch_page_handle_ok s _ hp]

theorem insert_record_at_error (s : RmFileHandle) (rid : Rid) (buf : List UInt8)
    (hp : rid.page_no = -1) :
    s.insert_record_at rid buf = (.error (.PageNotExistError (-1)), s) := by
  simp [insert_record_at, hp, fetch_page_handle_invalid]

theorem insert_record_at_occupied (s : RmFileHandle) (rid : Rid) (buf : List UInt8)
    (hp : rid.page_no ≠ -1) (hocc : s.occupied rid = true) :
    s.insert_record_at rid buf = (.error .SlotOccupied, s) := by
  unfold insert_record_at
  rw [fetch_page_handle_ok s _ hp]
  simp only [occupied] at hocc
  simp [hocc]

theorem insert_record_at_ok (s : RmFileHandle) (rid : Rid) (buf : List UInt8)
    (hp : rid.page_no ≠ -1) (hocc : s.occupied rid = false) :
    s.insert_record_at rid buf = (.ok (), s.write_slot ⟨rid.page_no⟩ rid.slot_no buf) := by
  unfold insert_record_at
  rw [fetch_page_handle_ok s _ hp]
  simp only [occupied] at hocc
  simp [hocc]

end RmFileHandle

namespace RmFileHandle

theorem find_free_slot_spec (bm : Int → Bool) (bs : Int) :
    (find_free_slot bm bs = -1 ∧ ∀ j, 0 ≤ j → j < bs → bm j = true)
    ∨ (0 ≤ find_free_slot bm bs ∧ find_free_slot bm bs < bs
        ∧ bm (find_free_slot bm bs) = false
        ∧ ∀ j, 0 ≤ j → j < find_free_slot bm bs → bm j = true) := by
  unfold find_free_slot
  rcases find_free_slot_loop_spec bm bs.toNat 0 with ⟨h1, h2⟩ | ⟨h1, h2, h3, h4⟩
  · left
    refine ⟨h1, ?_⟩
    intro j hj1 hj2
    exact h2 j hj1 (by omega)
  · right
    exact ⟨h1, by omega, h3, h4⟩

theorem create_new_page_handle_pages_new (s : RmFileHandle) :
    s.create_new_page_handle.2.pages (s.file_hdr_.num_pages : Int)
      = { page_hdr := { next_free_page_no := -1, num_records := 0 }
          bitmap := fun _ => false
          slots := fun _ => List.replicate s.file_hdr_.record_size 0 } := by
  rw [create_new_page_handle_pages]; simp

theorem create_new_page_handle_pages_old (s : RmFileHandle) (q : Int)
    (hq : q ≠ (s.file_hdr_.num_pages : Int)) :
    s.create_new_page_handle.2.pages q = s.pages q := by
  rw [create_new_page_handle_pages]; simp [hq]

theorem insert_target_slot (s : RmFileHandle) (hg : s.geometry_ok) :
    0 ≤ s.insert_target.2.2
      ∧ s.insert_target.2.2 < s.file_hdr_.num_records_per_page
      ∧ (s.insert_target.1.pages s.insert_target.2.1.page_no).bitmap s.insert_target.2.2
          = false := by
  obtain ⟨hbs, hn⟩ := hg
  unfold insert_target
  by_cases hff : s.file_hdr_.first_free_page_no = -1
  · simp only [hff, ne_eq, not_true_eq_false, if_false, create_new_page_handle_fst,
      create_new_page_handle_pages_new, create_new_page_handle_file_hdr]
    rcases find_free_slot_spec (fun _ => false) s.file_hdr_.bitmap_size
      with ⟨h1, h2⟩ | ⟨h1, h2, h3, h4⟩
    · have := h2 0 (le_refl _) (by omega)
      simp at this
    · have hne : find_free_slot (fun _ => false) s.file_hdr_.bitmap_size ≠ -1 := by omega
      simp only [hne, if_false, create_new_page_handle_pages_new]
      exact ⟨h1, by omega, trivial⟩
  · simp only [hff, ne_eq, not_false_eq_true, if_true]
    rcases find_free_slot_spec (s.pages s.file_hdr_.first_free_page_no).bitmap
      s.file_hdr_.bitmap_size with ⟨h1, h2⟩ | ⟨h1, h2, h3, h4⟩
    · simp only [h1, if_true, create_new_page_handle_fst, create_new_page_handle_pages_new]
      exact ⟨le_refl _, hn, trivial⟩
    · have hne : find_free_slot (s.pages s.file_hdr_.first_free_page_no).bitmap
          s.file_hdr_.bitmap_size ≠ -1 := by omega
      simp only [hne, if_false]
      exact ⟨h1, by omega, h3⟩

theorem capacity_create_new_page_handle (s : RmFileHandle) (hcap : ∀ p, s.capacity_ok p) :
    ∀ p, s.create_new_page_handle.2.capacity_ok p := by
  intro p
  unfold capacity_ok
  by_cases hp : p = (s.file_hdr_.num_pages : Int)
  · subst hp
    rw [create_new_page_handle_pages_new]
    simp [Bitmap.popcount_zeroed]
  · rw [create_new_page_handle_pages_old s p hp, create_new_page_handle_file_hdr]
    exact hcap p

theorem capacity_insert_target (s : RmFileHandle) (hcap : ∀ p, s.capacity_ok p) :
    ∀ p, s.insert_target.1.capacity_ok p := by
  unfold insert_target
  by_cases hff : s.file_hdr_.first_free_page_no = -1
  · simp only [hff, ne_eq, not_true_eq_false, if_false]
    split
    · exact capacity_create_new_page_handle _ (capacity_create_new_page_handle s hcap)
    · exact capacity_create_new_page_handle s hcap
  · simp only [hff, ne_eq, not_false_eq_true, if_true]
    split
    · exact capacity_create_new_page_handle s hcap
    · exact hcap

theorem capacity_write_slot (s : RmFileHandle) (h : RmPageHandle) (k : Int) (buf : List UInt8)
    (hcap : ∀ p, s.capacity_ok p) (hk0 : 0 ≤ k) (hkn : k < s.file_hdr_.num_records_per_page)
    (hclear : (s.pages h.page_no).bitmap k = false) :
    ∀ p, (s.write_slot h k buf).capacity_ok p := by
  intro p
  unfold capacity_ok
  rw [write_slot_file_hdr]
  by_cases hp : p = h.page_no
  · subst hp
    rw [write_slot_pages_same]
    simp only [written_page]
    rw [Bitmap.popcount_set _ _ _ hk0 hkn hclear]
    have := hcap h.page_no
    unfold capacity_ok at this
    omega
  · rw [write_slot_pages_other s h k buf p hp]
    exact hcap p

theorem capacity_apply (s : RmFileHandle) (op : Op) (hg : s.geometry_ok)
    (hcap : ∀ p, s.capacity_ok p) (hadm : s.admissible op) :
    ∀ p, (s.apply op).capacity_ok p := by
  cases op with
  | insert buf =>
    simp only [apply, insert_record_eq]
    obtain ⟨h1, h2, h3⟩ := insert_target_slot s hg
    exact capacity_write_slot _ _ _ _ (capacity_insert_target s hcap) h1
      (by rw [(insert_target_hdr s).2.1]; exact h2) h3
  | insert_at rid buf =>
    obtain ⟨h1, h2⟩ := hadm
    simp only [apply]
    by_cases hp : rid.page_no = -1
    · rw [insert_record_at_error s rid buf hp]; exact hcap
    · by_cases hocc : s.occupied rid = true
      · rw [insert_record_at_occupied s rid buf hp hocc]; exact hcap
      · have hocc2 : s.occupied rid = false := by simpa using hocc
        rw [insert_record_at_ok s rid buf hp hocc2]
        exact capacity_write_slot _ _ _ _ hcap h1 h2 hocc2
  | delete rid =>
    obtain ⟨h1, h2, h3⟩ := hadm
    simp only [apply]
    by_cases hp : rid.page_no = -1
    · rw [delete_record_error s rid hp]; exact hcap
    · intro p
      unfold capacity_ok
      rw [delete_record_pages s rid hp, delete_record_file_hdr s rid hp]
      by_cases hq : p = rid.page_no
      · subst hq
        simp only [if_true]
        have h3b : (s.pages rid.page_no).bitmap rid.slot_no = true := h3
        rw [Bitmap.popcount_reset _ _ _ h1 h2 h3b]
        have := hcap rid.page_no
        unfold capacity_ok at this
        omega
      · simp only [hq, if_false]
        exact hcap p
  | update rid buf =>
    simp only [apply]
    by_cases hp : rid.page_no = -1
    · rw [update_record_error s rid buf hp]; exact hcap
    · rw [update_record_ok s rid buf hp]
      intro p
      unfold capacity_ok
      by_cases hq : p = rid.page_no
      · subst hq
        simp only [set_page_pages_same, set_page_file_hdr]
        exact hcap rid.page_no
      · rw [set_page_pages_other _ _ _ _ hq]
        exact hcap p

theorem geometry_apply (s : RmFileHandle) (op : Op) :
    (s.apply op).file_hdr_.record_size = s.file_hdr_.record_size
    ∧ (s.apply op).file_hdr_.num_records_per_page = s.file_hdr_.num_records_per_page
    ∧ (s.apply op).file_hdr_.bitmap_size = s.file_hdr_.bitmap_size := by
  cases op with
  | insert buf =>
    simp only [apply, insert_record_eq, write_slot_file_hdr]
    exact insert_target_hdr s
  | insert_at rid buf =>
    simp only [apply]
    by_cases hp : rid.page_no = -1
    · rw [insert_record_at_error s rid buf hp]; simp
    · by_cases hocc : s.occupied rid = true
      · rw [insert_record_at_occupied s rid buf hp hocc]; simp
      · have hocc2 : s.occupied rid = false := by simpa using hocc
        rw [insert_record_at_ok s rid buf hp hocc2]
        simp [write_slot_file_hdr]
  | delete rid =>
    simp only [apply]
    by_cases hp : rid.page_no = -1
    · rw [delete_record_error s rid hp]; simp
    · rw [delete_record_file_hdr s rid hp]; simp
  | update rid buf =>
    simp only [apply]
    by_cases hp : rid.page_no = -1
    · rw [update_record_error s rid buf hp]; simp
    · rw [update_record_ok s rid buf hp]; simp

theorem capacity_run (s : RmFileHandle) (ops : List Op) (hg : s.geometry_ok)
    (hcap : ∀ p, s.capacity_ok p) (hadm : s.admissible_run ops) :
    ∀ p, (s.run ops).capacity_ok p := by
  induction ops generalizing s with
  | nil => exact hcap
  | cons op ops ih =>
    obtain ⟨h1, h2⟩ := hadm
    have hg2 : (s.apply op).geometry_ok := by
      obtain ⟨_, e2, e3⟩ := geometry_apply s op
      unfold geometry_ok at *
      rw [e2, e3]; exact hg
    exact ih (s.apply op) hg2 (capacity_apply s op hg hcap h1) h2

end RmFileHandle

/-! ## Free-page list -/

namespace RmFileHandle

theorem free_list_from_sentinel (s : RmFileHandle) (k : Nat) :
    s.free_list_from k RM_NO_PAGE = [] := by
  cases k <;> simp [free_list_from]

theorem not_in_free_list_of_empty (s : RmFileHandle) (q : Int)
    (hff : s.file_hdr_.first_free_page_no = RM_NO_PAGE) : ¬ s.in_free_list q := by
  rintro ⟨k, hk⟩
  rw [hff, free_list_from_sentinel] at hk
  simp at hk

theorem free_list_from_self_loop (s : RmFileHandle) (p : Int)
    (hloop : (s.pages p).page_hdr.next_free_page_no = p) :
    ∀ k x, x ∈ s.free_list_from k p → x = p := by
  intro k
  induction k with
  | zero => intro x hx; simp [free_list_from] at hx
  | succ k ih =>
    intro x hx
    unfold free_list_from at hx
    split at hx
    · simp at hx
    · rw [hloop] at hx
      rcases List.mem_cons.1 hx with h | h
      · exact h
      · exact ih x h

end RmFileHandle

/-- C4 at its failing input: after the scenario of the spec (`A..E` inserted, `B`
deleted) the delete of `C` at `(1, 2)`, an occupied slot on the already non-full page 1,
links page 1 to itself; page 2 is then an allocated data page with
`num_records < num_records_per_page` that is not reachable from `first_free_page_no`. -/
theorem free_list_loses_page_after_second_delete :
    scenario_deleted.occupied ⟨1, 2⟩ = true
      ∧ scenario_deleted.in_free_list 2
      ∧ scenario_deleted_twice.is_data_page 2
      ∧ (scenario_deleted_twice.pages 2).page_hdr.num_records
          < scenario_deleted_twice.file_hdr_.num_records_per_page
      ∧ scenario_deleted_twice.file_hdr_.first_free_page_no = 1
      ∧ (scenario_deleted_twice.pages 1).page_hdr.next_free_page_no = 1
      ∧ ¬ scenario_deleted_twice.in_free_list 2 := by
  refine ⟨by decide, ⟨2, by decide⟩, by decide, by decide, by decide, by decide, ?_⟩
  rintro ⟨k, hk⟩
  have h1 : scenario_deleted_twice.file_hdr_.first_free_page_no = 1 := by decide
  rw [h1] at hk
  have := RmFileHandle.free_list_from_self_loop scenario_deleted_twice 1 (by decide) k 2 hk
  exact absurd this (by decide)

/-- C5 at its failing input: in the scenario of the spec after `B` was deleted, page 2
holds one record out of four (it is non-full) and is linked behind page 1; the delete of
`E` at `(2, 0)` nevertheless changes `first_free_page_no` from 1 to 2 and page 2's
`next_free_page_no` from the sentinel to 1. -/
theorem delete_relinks_non_full_page :
    (scenario_deleted.pages 2).page_hdr.num_records = 1
      ∧ scenario_deleted.file_hdr_.num_records_per_page = 4
      ∧ scenario_deleted.occupied ⟨2, 0⟩ = true
      ∧ scenario_deleted.file_hdr_.first_free_page_no = 1
      ∧ (scenario_deleted.pages 2).page_hdr.next_free_page_no = -1
      ∧ (scenario_deleted.delete_record ⟨2, 0⟩).1 = .ok ()
      ∧ (scenario_deleted.delete_record ⟨2, 0⟩).2.file_hdr_.first_free_page_no = 2
      ∧ ((scenario_deleted.delete_record ⟨2, 0⟩).2.pages 2).page_hdr.next_free_page_no = 1 := by
  refine ⟨by decide, by decide, by decide, by decide, by decide, rfl, by decide, by decide⟩

/-- C8 at its failing input: with page 1 (non-full) heading the free-page list and
page 2 behind it, the positioned insert at `(2, 3)` fills page 2 and sets
`first_free_page_no` to page 2's `next_free_page_no`, the sentinel; page 1, which was
reachable and is still non-full, is no longer reachable. -/
theorem positioned_insert_drops_list_prefix :
    scenario_page2_filling.occupied ⟨2, 3⟩ = false
      ∧ scenario_page2_filling.in_free_list 1
      ∧ (scenario_page2_filling.insert_record_at ⟨2, 3⟩ (rec16 73)).1 = .ok ()
      ∧ ((scenario_page2_filling.insert_record_at ⟨2, 3⟩ (rec16 73)).2.pages 2).page_hdr.num_records
          = 4
      ∧ ((scenario_page2_filling.insert_record_at ⟨2, 3⟩ (rec16 73)).2.pages 1).page_hdr.num_records
          < (scenario_page2_filling.insert_record_at ⟨2, 3⟩ (rec16 73)).2.file_hdr_.num_records_per_page
      ∧ (scenario_page2_filling.insert_record_at ⟨2, 3⟩ (rec16 73)).2.file_hdr_.first_free_page_no
          = RM_NO_PAGE
      ∧ ¬ (scenario_page2_filling.insert_record_at ⟨2, 3⟩ (rec16 73)).2.in_free_list 1 := by
  refine ⟨by decide, ⟨1, by decide⟩, rfl, by decide, by decide, by decide, ?_⟩
  exact RmFileHandle.not_in_free_list_of_empty _ 1 (by decide)

/-! ## Frame properties -/

namespace RmFileHandle

theorem insert_target_cases (s : RmFileHandle) :
    (s.insert_target.1 = s
      ∧ s.insert_target.2.1.page_no = s.file_hdr_.first_free_page_no
      ∧ (s.pages s.file_hdr_.first_free_page_no).bitmap s.insert_target.2.2 = false)
    ∨ ((s.file_hdr_.num_pages : Int) ≤ s.insert_target.2.1.page_no
      ∧ ∀ q, q < (s.file_hdr_.num_pages : Int) → s.insert_target.1.pages q = s.pages q) := by
  unfold insert_target
  by_cases hff : s.file_hdr_.first_free_page_no = -1
  · simp only [hff, ne_eq, not_true_eq_false, if_false]
    right
    split
    · refine ⟨?_, ?_⟩
      · simp only [create_new_page_handle_fst, create_new_page_handle_file_hdr]
        push_cast; omega
      · intro q hq
        rw [create_new_page_handle_pages_old _ q
          (by simp only [create_new_page_handle_file_hdr]; push_cast; omega),
          create_new_page_handle_pages_old s q (by omega)]
    · refine ⟨by simp [create_new_page_handle_fst], ?_⟩
      intro q hq
      rw [create_new_page_handle_pages_old s q (by omega)]
  · simp only [hff, ne_eq, not_false_eq_true, if_true]
    rcases find_free_slot_spec (s.pages s.file_hdr_.first_free_page_no).bitmap
      s.file_hdr_.bitmap_size with ⟨h1, h2⟩ | ⟨h1, h2, h3, h4⟩
    · simp only [h1, if_true]
      right
      refine ⟨by simp [create_new_page_handle_fst], ?_⟩
      intro q hq
      rw [create_new_page_handle_pages_old s q (by omega)]
    · have hne : find_free_slot (s.pages s.file_hdr_.first_free_page_no).bitmap
          s.file_hdr_.bitmap_size ≠ -1 := by omega
      simp only [hne, if_false]
      left
      exact ⟨trivial, trivial, h3⟩

/-- What `occupied` and `get_record` of `rid` depend on: the record size, the bit and
the slot bytes of `rid`. -/
theorem frame_of_same_slot (s t : RmFileHandle) (rid : Rid)
    (hsize : t.file_hdr_.record_size = s.file_hdr_.record_size)
    (hbit : (t.pages rid.page_no).bitmap rid.slot_no = (s.pages rid.page_no).bitmap rid.slot_no)
    (hslot : (t.pages rid.page_no).slots rid.slot_no = (s.pages rid.page_no).slots rid.slot_no) :
    t.occupied rid = s.occupied rid ∧ t.get_record rid = s.get_record rid := by
  refine ⟨?_, ?_⟩
  · simp only [occupied, Bitmap.is_set, hbit]
  · by_cases hp : rid.page_no = -1
    · simp [get_record, hp, fetch_page_handle_invalid]
    · simp [get_record, fetch_page_handle_ok _ _ hp, get_slot, hsize, hslot]

theorem frame_write_slot (s : RmFileHandle) (h : RmPageHandle) (k : Int) (buf : List UInt8)
    (rid : Rid) (hocc : s.occupied rid = true)
    (hne : rid.page_no = h.page_no → rid.slot_no ≠ k) :
    (s.write_slot h k buf).occupied rid = true
      ∧ (s.write_slot h k buf).get_record rid = s.get_record rid := by
  have hocc2 : (s.pages rid.page_no).bitmap rid.slot_no = true := hocc
  have key := frame_of_same_slot s (s.write_slot h k buf) rid
    (by rw [write_slot_file_hdr])
    (by
      by_cases hp : rid.page_no = h.page_no
      · rw [hp, write_slot_pages_same]
        simp only [written_page, Bitmap.set]
        rw [← hp, hocc2]
        simp
      · rw [write_slot_pages_other _ _ _ _ _ hp])
    (by
      by_cases hp : rid.page_no = h.page_no
      · rw [hp, write_slot_pages_same]
        simp only [written_page, hne hp, if_false]
      · rw [write_slot_pages_other _ _ _ _ _ hp])
  rw [key.1, key.2]
  exact ⟨hocc, rfl⟩

end RmFileHandle

theorem Rid.slot_ne_of_ne (r rid : Rid) (hne : r ≠ rid) (hp : rid.page_no = r.page_no) :
    rid.slot_no ≠ r.slot_no := by
  intro hs
  apply hne
  obtain ⟨p, k⟩ := r
  obtain ⟨p2, k2⟩ := rid
  simp only at hp hs
  simp [hp, hs]

/-- C7 (positioned insert rejects an occupied slot atomically): for every state and every
Rid whose page number is not the invalid page identity, `insert_record(rid, data)` raises
the slot-occupied error if and only if the occupancy bit of `rid` is set before the
call, and whenever it raises an error the state after the call is the state before
it. -/
theorem positioned_insert_rejects_occupied (s : RmFileHandle) (rid : Rid) (buf : List UInt8)
    (hvalid : rid.page_no ≠ INVALID_PAGE_ID) :
    ((s.insert_record_at rid buf).1 = .error .SlotOccupied ↔ s.occupied rid = true)
      ∧ ∀ e, (s.insert_record_at rid buf).1 = .error e → (s.insert_record_at rid buf).2 = s := by
  have hp : rid.page_no ≠ -1 := hvalid
  by_cases hocc : s.occupied rid = true
  · rw [RmFileHandle.insert_record_at_occupied s rid buf hp hocc]
    exact ⟨⟨fun _ => hocc, fun _ => rfl⟩, fun _ _ => rfl⟩
  · have hocc2 : s.occupied rid = false := by simpa using hocc
    rw [RmFileHandle.insert_record_at_ok s rid buf hp hocc2]
    refine ⟨⟨fun h => ?_, fun h => absurd h hocc⟩, fun e h => ?_⟩
    · simp at h
    · simp at h

/-- Witness for C7 on the scenario of the spec: the slot of `A` is occupied, the
positioned insert on it is rejected and changes nothing. -/
theorem positioned_insert_rejects_occupied_witness :
    (((scenario_deleted.insert_record_at ⟨1, 0⟩ (rec16 70)).1 = .error .SlotOccupied
        ↔ scenario_deleted.occupied ⟨1, 0⟩ = true)
      ∧ ∀ e, (scenario_deleted.insert_record_at ⟨1, 0⟩ (rec16 70)).1 = .error e →
          (scenario_deleted.insert_record_at ⟨1, 0⟩ (rec16 70)).2 = scenario_deleted)
    ∧ scenario_deleted.occupied ⟨1, 0⟩ = true
    ∧ (scenario_deleted.insert_record_at ⟨1, 0⟩ (rec16 70)).1 = .error .SlotOccupied :=
  ⟨positioned_insert_rejects_occupied scenario_deleted ⟨1, 0⟩ (rec16 70) (by decide),
    by decide, rfl⟩

/-- C9 counterexample: a state with `bitmap_size = num_records_per_page` in which
`first_free_page_no` is page 1, not the sentinel, and page 1 has no clear bit;
`insert_record` does not operate on the head page but returns slot 0 of the newly
allocated page 2. -/
theorem insert_skips_full_head_page :
    head_full_state.file_hdr_.bitmap_size = head_full_state.file_hdr_.num_records_per_page
      ∧ head_full_state.file_hdr_.first_free_page_no = 1
      ∧ head_full_state.file_hdr_.first_free_page_no ≠ RM_NO_PAGE
      ∧ head_full_state.file_hdr_.num_pages = 2
      ∧ (head_full_state.insert_record (rec16 68)).1 = .ok ⟨2, 0⟩ := by
  refine ⟨by decide, by decide, by decide, by decide, rfl⟩

namespace RmFileHandle

theorem insert_target_head (s : RmFileHandle) (hg : s.geometry_ok) (hroom : s.head_has_room) :
    s.insert_target
      = (s, ⟨s.file_hdr_.first_free_page_no⟩,
          find_free_slot (s.pages s.file_hdr_.first_free_page_no).bitmap
            s.file_hdr_.bitmap_size)
    ∧ 0 ≤ find_free_slot (s.pages s.file_hdr_.first_free_page_no).bitmap
            s.file_hdr_.bitmap_size
    ∧ find_free_slot (s.pages s.file_hdr_.first_free_page_no).bitmap
            s.file_hdr_.bitmap_size < s.file_hdr_.num_records_per_page
    ∧ (s.pages s.file_hdr_.first_free_page_no).bitmap
        (find_free_slot (s.pages s.file_hdr_.first_free_page_no).bitmap
            s.file_hdr_.bitmap_size) = false
    ∧ ∀ j, 0 ≤ j →
        j < find_free_slot (s.pages s.file_hdr_.first_free_page_no).bitmap
            s.file_hdr_.bitmap_size →
        (s.pages s.file_hdr_.first_free_page_no).bitmap j = true := by
  obtain ⟨hbs, hn⟩ := hg
  obtain ⟨hff, i, hi0, hin, hi⟩ := hroom
  have hff2 : s.file_hdr_.first_free_page_no ≠ -1 := hff
  rcases find_free_slot_spec (s.pages s.file_hdr_.first_free_page_no).bitmap
    s.file_hdr_.bitmap_size with ⟨h1, h2⟩ | ⟨h1, h2, h3, h4⟩
  · have := h2 i hi0 (by omega)
    rw [hi] at this
    exact absurd this (by simp)
  · have hne : find_free_slot (s.pages s.file_hdr_.first_free_page_no).bitmap
        s.file_hdr_.bitmap_size ≠ -1 := by omega
    refine ⟨?_, h1, by omega, h3, h4⟩
    unfold insert_target
    simp only [hff2, ne_eq, not_false_eq_true, if_true, hne, if_false]

theorem insert_target_new (s : RmFileHandle) (hg : s.geometry_ok) (hroom : ¬ s.head_has_room) :
    s.insert_target = (s.create_new_page_handle.2, ⟨(s.file_hdr_.num_pages : Int)⟩, 0) := by
  obtain ⟨hbs, hn⟩ := hg
  unfold insert_target
  by_cases hff : s.file_hdr_.first_free_page_no = -1
  · simp only [hff, ne_eq, not_true_eq_false, if_false, create_new_page_handle_fst,
      create_new_page_handle_pages_new, create_new_page_handle_file_hdr]
    rcases find_free_slot_spec (fun _ => false) s.file_hdr_.bitmap_size
      with ⟨h1, h2⟩ | ⟨h1, h2, h3, h4⟩
    · have := h2 0 (le_refl _) (by omega)
      simp at this
    · have hzero : find_free_slot (fun _ => false) s.file_hdr_.bitmap_size = 0 := by
        by_contra hne
        have := h4 0 (le_refl _) (by omega)
        simp at this
      simp [hzero]
  · simp only [hff, ne_eq, not_false_eq_true, if_true]
    rcases find_free_slot_spec (s.pages s.file_hdr_.first_free_page_no).bitmap
      s.file_hdr_.bitmap_size with ⟨h1, h2⟩ | ⟨h1, h2, h3, h4⟩
    · simp only [h1, if_true, create_new_page_handle_fst]
    · exfalso
      apply hroom
      exact ⟨hff, _, h1, by omega, h3⟩

end RmFileHandle

/-- C9 amended (auto-assign insert postcondition): in every state with
`bitmap_size = num_records_per_page` and at least one slot per page, `insert_record(data)`
returns a Rid `(P, k)` where `P` is the free-list head page if `first_free_page_no` is
not the sentinel and that page has a clear bit in `[0, num_records_per_page)`, and
otherwise a newly allocated page (numbered with the old `num_pages`, `num_pages`
growing by one); `k` is the lowest index in `[0, num_records_per_page)` whose bit was
clear on that page (0 on a new page); afterwards the bit of `(P, k)` is set, the
`num_records` of `P` has increased by exactly one (to 1 on a new page), and if `P` is
now full `first_free_page_no` equals the `next_free_page_no` of `P`. -/
theorem insert_record_postcondition (s : RmFileHandle) (buf : List UInt8)
    (hg : s.geometry_ok) :
    ∃ P k, (s.insert_record buf).1 = .ok ⟨P, k⟩
      ∧ (s.head_has_room →
          P = s.file_hdr_.first_free_page_no
          ∧ (s.pages P).bitmap k = false
          ∧ (∀ j, 0 ≤ j → j < k → (s.pages P).bitmap j = true)
          ∧ ((s.insert_record buf).2.pages P).page_hdr.num_records
              = (s.pages P).page_hdr.num_records + 1
          ∧ (s.insert_record buf).2.file_hdr_.num_pages = s.file_hdr_.num_pages)
      ∧ (¬ s.head_has_room →
          P = (s.file_hdr_.num_pages : Int)
          ∧ k = 0
          ∧ ((s.insert_record buf).2.pages P).page_hdr.num_records = 1
          ∧ (s.insert_record buf).2.file_hdr_.num_pages = s.file_hdr_.num_pages + 1)
      ∧ 0 ≤ k ∧ k < s.file_hdr_.num_records_per_page
      ∧ (s.insert_record buf).2.occupied ⟨P, k⟩ = true
      ∧ (((s.insert_record buf).2.pages P).page_hdr.num_records
            = s.file_hdr_.num_records_per_page →
          (s.insert_record buf).2.file_hdr_.first_free_page_no
            = ((s.insert_record buf).2.pages P).page_hdr.next_free_page_no) := by
  rw [RmFileHandle.insert_record_eq]
  by_cases hroom : s.head_has_room
  · obtain ⟨ht, h0, hn, hclear, hlow⟩ := RmFileHandle.insert_target_head s hg hroom
    rw [ht]
    refine ⟨_, _, rfl, ?_, fun h => absurd hroom h, h0, hn, ?_, ?_⟩
    · intro _
      refine ⟨rfl, hclear, hlow, ?_, ?_⟩
      · simp only [RmFileHandle.write_slot_pages_mk, RmFileHandle.written_page]
      · simp only [RmFileHandle.write_slot_file_hdr]
    · simp [RmFileHandle.occupied, Bitmap.is_set, RmFileHandle.write_slot_pages_mk,
        RmFileHandle.written_page, Bitmap.set]
    · intro hfull
      simp only [RmFileHandle.write_slot_pages_mk, RmFileHandle.written_page] at hfull
      simp only [RmFileHandle.write_slot_file_hdr, hfull, if_true,
        RmFileHandle.write_slot_pages_mk, RmFileHandle.written_page]
  · rw [RmFileHandle.insert_target_new s hg hroom]
    refine ⟨_, _, rfl, fun h => absurd h hroom, ?_, le_refl _, hg.2, ?_, ?_⟩
    · intro _
      refine ⟨rfl, rfl, ?_, ?_⟩
      · simp only [RmFileHandle.write_slot_pages_mk, RmFileHandle.written_page,
          RmFileHandle.create_new_page_handle_pages_new]
        norm_num
      · simp only [RmFileHandle.write_slot_file_hdr,
          RmFileHandle.create_new_page_handle_file_hdr]
    · simp [RmFileHandle.occupied, Bitmap.is_set, RmFileHandle.write_slot_pages_mk,
        RmFileHandle.written_page, Bitmap.set]
    · intro hfull
      simp only [RmFileHandle.write_slot_pages_mk, RmFileHandle.written_page,
        RmFileHandle.create_new_page_handle_pages_new] at hfull
      simp only [RmFileHandle.write_slot_file_hdr, RmFileHandle.write_slot_pages_mk,
        RmFileHandle.written_page, RmFileHandle.create_new_page_handle_pages_new,
        RmFileHandle.create_new_page_handle_file_hdr, hfull, if_true]

/-- Witness for C9 amended on the scenario of the spec: the insert of `F` after `B` was
deleted. -/
theorem insert_record_postcondition_witness :
    scenario_deleted.geometry_ok
      ∧ scenario_deleted.head_has_room
      ∧ (scenario_deleted.insert_record (rec16 70)).1 = .ok ⟨1, 1⟩
      ∧ ∃ P k, (scenario_deleted.insert_record (rec16 70)).1 = .ok ⟨P, k⟩
        ∧ (scenario_deleted.head_has_room →
            P = scenario_deleted.file_hdr_.first_free_page_no
            ∧ (scenario_deleted.pages P).bitmap k = false
            ∧ (∀ j, 0 ≤ j → j < k → (scenario_deleted.pages P).bitmap j = true)
            ∧ ((scenario_deleted.insert_record (rec16 70)).2.pages P).page_hdr.num_records
                = (scenario_deleted.pages P).page_hdr.num_records + 1
            ∧ (scenario_deleted.insert_record (rec16 70)).2.file_hdr_.num_pages
                = scenario_deleted.file_hdr_.num_pages)
        ∧ (¬ scenario_deleted.head_has_room →
            P = (scenario_deleted.file_hdr_.num_pages : Int)
            ∧ k = 0
            ∧ ((scenario_deleted.insert_record (rec16 70)).2.pages P).page_hdr.num_records = 1
            ∧ (scenario_deleted.insert_record (rec16 70)).2.file_hdr_.num_pages
                = scenario_deleted.file_hdr_.num_pages + 1)
        ∧ 0 ≤ k ∧ k < scenario_deleted.file_hdr_.num_records_per_page
        ∧ (scenario_deleted.insert_record (rec16 70)).2.occupied ⟨P, k⟩ = true
        ∧ (((scenario_deleted.insert_record (rec16 70)).2.pages P).page_hdr.num_records
              = scenario_deleted.file_hdr_.num_records_per_page →
            (scenario_deleted.insert_record (rec16 70)).2.file_hdr_.first_free_page_no
              = ((scenario_deleted.insert_record (rec16 70)).2.pages P).page_hdr.next_free_page_no) :=
  ⟨⟨by decide, by decide⟩, ⟨by decide, 1, by decide, by decide, by decide⟩, rfl,
    insert_record_postcondition scenario_deleted (rec16 70) ⟨by decide, by decide⟩⟩

theorem Bitmap.count_set_le (bm : Int → Bool) (m : Nat) : Bitmap.count_set bm m ≤ m := by
  induction m with
  | zero => simp [Bitmap.count_set]
  | succ m ih =>
    simp only [Bitmap.count_set]
    split <;> omega

theorem Bitmap.count_set_full (bm : Int → Bool) (m : Nat) (h : Bitmap.count_set bm m = m) :
    ∀ j : Nat, j < m → bm (j : Int) = true := by
  induction m with
  | zero => intro j hj; omega
  | succ m ih =>
    intro j hj
    simp only [Bitmap.count_set] at h
    have hle := Bitmap.count_set_le bm m
    by_cases hb : bm (m : Int) = true
    · simp only [hb, if_true] at h
      by_cases hjm : j = m
      · subst hjm; exact hb
      · exact ih (by omega) j (by omega)
    · simp only [hb] at h
      simp at h
      omega

theorem Bitmap.popcount_full (bm : Int → Bool) (n : Int) (h : Bitmap.popcount bm n = n) :
    ∀ j, 0 ≤ j → j < n → bm j = true := by
  intro j hj0 hjn
  obtain ⟨i, rfl⟩ := Int.eq_ofNat_of_zero_le hj0
  apply Bitmap.count_set_full bm n.toNat _ i (by omega)
  unfold Bitmap.popcount at h
  omega

/-- The full-to-non-full half of the delete contract: a delete on a page with
`num_records = num_records_per_page` pushes the page as the new free-list head. -/
theorem delete_record_links_full_page (s : RmFileHandle) (rid : Rid)
    (hvalid : rid.page_no ≠ INVALID_PAGE_ID)
    (hfull : (s.pages rid.page_no).page_hdr.num_records = s.file_hdr_.num_records_per_page) :
    ((s.delete_record rid).2.pages rid.page_no).page_hdr.next_free_page_no
        = s.file_hdr_.first_free_page_no
      ∧ (s.delete_record rid).2.file_hdr_.first_free_page_no = rid.page_no := by
  have hp : rid.page_no ≠ -1 := hvalid
  have hlt : (s.pages rid.page_no).page_hdr.num_records - 1
      < s.file_hdr_.num_records_per_page := by omega
  rw [RmFileHandle.delete_record_pages s rid hp, RmFileHandle.delete_record_file_hdr s rid hp]
  simp [hlt]

/-! ## Update -/

theorem memcpy_idem (dst src : List UInt8) (n : Nat) (h : src.length = n) :
    memcpy (memcpy dst src n) src n = memcpy dst src n := by
  subst h
  simp [memcpy]

theorem RmFileHandle.set_page_set_page (s : RmFileHandle) (p : Int) (pg pg2 : Page) :
    (s.set_page p pg).set_page p pg2 = s.set_page p pg2 := by
  unfold RmFileHandle.set_page
  congr 1
  funext q
  by_cases hq : q = p <;> simp [hq]

/-! ## Page fetch and allocation -/

/-- C12 counterexample: on a new file (`num_pages = 1`) `fetch_page_handle` succeeds for
page 7, which is at or beyond `num_pages`, and for the negative page number `-2`, and
`get_record` of a Rid on page 7 returns a record instead of the page-not-found error. -/
theorem fetch_accepts_unallocated_page :
    (RmFileHandle.create_file 16 4).file_hdr_.num_pages = 1
      ∧ (RmFileHandle.create_file 16 4).fetch_page_handle 7 = .ok ⟨7⟩
      ∧ (RmFileHandle.create_file 16 4).fetch_page_handle (-2) = .ok ⟨-2⟩
      ∧ (RmFileHandle.create_file 16 4).get_record ⟨7, 0⟩
          = .ok ⟨16, List.replicate 16 0⟩ := by
  refine ⟨rfl, rfl, rfl, rfl⟩

/-- C12 amended (page-not-found): `fetch_page_handle` raises the page-not-found error
exactly for the sentinel page number `INVALID_PAGE_ID`, and returns a handle for every
other page number, so in particular for every allocated data page; `get_record` raises
the page-not-found error exactly for a Rid whose page number is the sentinel. -/
theorem fetch_fails_exactly_on_sentinel (s : RmFileHandle) (p : Int) (slot_no : Int) :
    (s.fetch_page_handle p = .error (.PageNotExistError p) ↔ p = INVALID_PAGE_ID)
      ∧ (s.fetch_page_handle p = .ok ⟨p⟩ ↔ p ≠ INVALID_PAGE_ID)
      ∧ (s.is_data_page p → s.fetch_page_handle p = .ok ⟨p⟩)
      ∧ (s.get_record ⟨p, slot_no⟩ = .error (.PageNotExistError p) ↔ p = INVALID_PAGE_ID)
      ∧ (s.is_data_page p → ∃ r, s.get_record ⟨p, slot_no⟩ = .ok r) := by
  by_cases hp : p = INVALID_PAGE_ID
  · have hnd : ¬ s.is_data_page p := by
      rintro ⟨h1, _⟩
      simp only [hp, INVALID_PAGE_ID, RM_FIRST_RECORD_PAGE] at h1
      omega
    refine ⟨?_, ?_, fun h => absurd h hnd, ?_, fun h => absurd h hnd⟩
    · simp [RmFileHandle.fetch_page_handle, hp]
    · simp [RmFileHandle.fetch_page_handle, hp]
    · simp [RmFileHandle.get_record, RmFileHandle.fetch_page_handle, hp]
  · refine ⟨?_, ?_, fun _ => ?_, ?_, fun _ => ?_⟩
    · simp [RmFileHandle.fetch_page_handle, hp]
    · simp [RmFileHandle.fetch_page_handle, hp]
    · simp [RmFileHandle.fetch_page_handle, hp]
    · simp [RmFileHandle.get_record, RmFileHandle.fetch_page_handle, hp]
    · exact ⟨_, by simp [RmFileHandle.get_record, RmFileHandle.fetch_page_handle, hp]; rfl⟩

/-- Witness for C12 amended on the scenario of the spec: page 2 is an allocated data
page and is fetched. -/
theorem fetch_fails_exactly_on_sentinel_witness :
    scenario_deleted.is_data_page 2
      ∧ scenario_deleted.fetch_page_handle 2 = .ok ⟨2⟩
      ∧ (∃ r, scenario_deleted.get_record ⟨2, 0⟩ = .ok r)
      ∧ scenario_deleted.fetch_page_handle INVALID_PAGE_ID
          = .error (.PageNotExistError INVALID_PAGE_ID) :=
  ⟨by decide,
    (fetch_fails_exactly_on_sentinel scenario_deleted 2 0).2.2.1 (by decide),
    (fetch_fails_exactly_on_sentinel scenario_deleted 2 0).2.2.2.2 (by decide),
    (fetch_fails_exactly_on_sentinel scenario_deleted INVALID_PAGE_ID 0).1.2 rfl⟩

/-- C14 at its failing input: on a file with 2 slots per page, insert `A`, delete `A`,
insert `B`, insert `C` (the delete targets an occupied slot) leave page 1 full, with both
occupancy bits set, and still reachable from `first_free_page_no`: the delete linked the
non-full head page to itself, so filling it sets the list head to the page itself. -/
theorem free_list_keeps_full_page :
    (RmFileHandle.create_file 16 2).admissible_run head_full_calls
      ∧ head_full_state = (RmFileHandle.create_file 16 2).run head_full_calls
      ∧ head_full_state.file_hdr_.first_free_page_no = 1
      ∧ head_full_state.in_free_list 1
      ∧ (head_full_state.pages 1).page_hdr.num_records
          = head_full_state.file_hdr_.num_records_per_page
      ∧ (head_full_state.pages 1).bitmap 0 = true
      ∧ (head_full_state.pages 1).bitmap 1 = true
      ∧ RmFileHandle.find_free_slot (head_full_state.pages 1).bitmap
          head_full_state.file_hdr_.bitmap_size = -1 := by
  refine ⟨by decide, rfl, by decide, ⟨1, by decide⟩, by decide, by decide, by decide,
    by decide⟩

/-- C15 (allocate_new_page postcondition): for every state, `create_new_page_handle`
returns a handle to the page numbered with the old `num_pages`, whose header has
`num_records = 0` and `next_free_page_no` the end-of-list sentinel; `num_pages` grows by
exactly one, `first_free_page_no` is the new page's number, the other header fields are
unchanged, and every previously existing page (number below the old `num_pages`) is
unchanged in header, bit vector and slots. -/
theorem create_new_page_handle_postcondition (s : RmFileHandle) :
    s.create_new_page_handle.1.page_no = (s.file_hdr_.num_pages : Int)
      ∧ (s.create_new_page_handle.2.pages
            s.create_new_page_handle.1.page_no).page_hdr.num_records = 0
      ∧ (s.create_new_page_handle.2.pages
            s.create_new_page_handle.1.page_no).page_hdr.next_free_page_no = RM_NO_PAGE
      ∧ s.create_new_page_handle.2.file_hdr_.num_pages = s.file_hdr_.num_pages + 1
      ∧ s.create_new_page_handle.2.file_hdr_.first_free_page_no
          = s.create_new_page_handle.1.page_no
      ∧ s.create_new_page_handle.2.file_hdr_.record_size = s.file_hdr_.record_size
      ∧ s.create_new_page_handle.2.file_hdr_.num_records_per_page
          = s.file_hdr_.num_records_per_page
      ∧ s.create_new_page_handle.2.file_hdr_.bitmap_size = s.file_hdr_.bitmap_size
      ∧ ∀ q, q < (s.file_hdr_.num_pages : Int) →
          s.create_new_page_handle.2.pages q = s.pages q := by
  refine ⟨rfl, ?_, ?_, rfl, rfl, rfl, rfl, rfl, ?_⟩
  · rw [RmFileHandle.create_new_page_handle_fst,
      RmFileHandle.create_new_page_handle_pages_new]
  · rw [RmFileHandle.create_new_page_handle_fst,
      RmFileHandle.create_new_page_handle_pages_new]
    rfl
  · intro q hq
    exact RmFileHandle.create_new_page_handle_pages_old s q (by omega)

/-- Witness for C15 on the scenario of the spec: allocating page 3 leaves page 1
unchanged. -/
theorem create_new_page_handle_postcondition_witness :
    scenario_deleted.create_new_page_handle.1.page_no = 3
      ∧ (1 : Int) < (scenario_deleted.file_hdr_.num_pages : Int)
      ∧ scenario_deleted.create_new_page_handle.2.pages 1 = scenario_deleted.pages 1
      ∧ scenario_deleted.create_new_page_handle.2.file_hdr_.num_pages = 4 :=
  ⟨(create_new_page_handle_postcondition scenario_deleted).1, by decide,
    (create_new_page_handle_postcondition scenario_deleted).2.2.2.2.2.2.2.2 1 (by decide),
    (create_new_page_handle_postcondition scenario_deleted).2.2.2.1⟩

/-! ## Scanner positions -/

namespace RmScan

theorem init_spec (fh : RmFileHandle)
    (hfirst : RM_FIRST_RECORD_PAGE < (fh.file_hdr_.num_pages : Int)
      ∨ ∀ i, 0 ≤ i → i < fh.file_hdr_.num_records_per_page →
          (fh.pages RM_FIRST_RECORD_PAGE).bitmap i = false) :
    ∃ r0, init fh = some (.ok r0)
      ∧ ((r0 = ⟨RM_NO_PAGE, -1⟩ ∧ ∀ q, ¬ fh.live q)
         ∨ (fh.live r0 ∧ ∀ q, fh.live q → q = r0 ∨ Rid.lt r0 q)) := by
  obtain ⟨r0, hr0, hcase⟩ := next_spec fh ⟨RM_FIRST_RECORD_PAGE, -1⟩
    (by simp [RM_FIRST_RECORD_PAGE]) (by simp) hfirst
  refine ⟨r0, hr0, ?_⟩
  rcases hcase with ⟨he, hnone⟩ | ⟨hlive, _, hmin⟩
  · left
    exact ⟨he, fun q hq => hnone q hq (start_lt_live fh q hq)⟩
  · right
    refine ⟨hlive, ?_⟩
    intro q hq
    rcases Rid_lt_total q r0 with h | h | h
    · exact absurd h (hmin q hq (start_lt_live fh q hq))
    · exact Or.inl h
    · exact Or.inr h

theorem is_end_sentinel : is_end ⟨RM_NO_PAGE, -1⟩ = true := by
  simp [is_end]

theorem next_of_end (fh : RmFileHandle) (r : Rid) (h : is_end r = true) :
    next fh r = some (.ok r) := by
  simp [next, h]

theorem next_n_of_end (fh : RmFileHandle) (k : Nat) (r : Rid) (h : is_end r = true) :
    next_n fh k r = some (.ok r) := by
  induction k with
  | zero => rfl
  | succ k ih => simp [next_n, next_of_end fh r h, ih]

theorem next_of_live (fh : RmFileHandle) (r : Rid) (hr : fh.live r) :
    ∃ r2, next fh r = some (.ok r2) ∧ (is_end r2 = true ∨ fh.live r2) := by
  obtain ⟨⟨h1, h2⟩, h3, h4, _⟩ := hr
  obtain ⟨r2, hr2, hcase⟩ := next_spec fh r h1 (by omega) (Or.inl h2)
  refine ⟨r2, hr2, ?_⟩
  rcases hcase with ⟨he, _⟩ | ⟨hlive, _, _⟩
  · left; rw [he]; exact is_end_sentinel
  · right; exact hlive

theorem next_n_valid (fh : RmFileHandle) (k : Nat) (r : Rid)
    (hr : is_end r = true ∨ fh.live r) :
    ∃ r2, next_n fh k r = some (.ok r2) ∧ (is_end r2 = true ∨ fh.live r2) := by
  induction k generalizing r with
  | zero => exact ⟨r, rfl, hr⟩
  | succ k ih =>
    rcases hr with he | hlive
    · exact ⟨r, next_n_of_end fh _ r he, Or.inl he⟩
    · obtain ⟨r2, hr2, hv⟩ := next_of_live fh r hlive
      obtain ⟨r3, hr3, hv3⟩ := ih r2 hv
      exact ⟨r3, by simp [next_n, hr2, hr3], hv3⟩

end RmScan

/-- C16 (scanner initial position): in every state in which the first data page is
allocated or, when the file has no data page yet, the cached page 1 holds no occupancy
bit, the constructor leaves the scanner at a position `r0` that is either the end
position `(RM_NO_PAGE, -1)`, when no slot of a data page has its occupancy bit set, or
the lexicographically smallest Rid of a data page whose occupancy bit is set; and
`is_end()` is true exactly when no slot of a data page has its occupancy bit set. -/
theorem scanner_initial_position (fh : RmFileHandle)
    (hfirst : RM_FIRST_RECORD_PAGE < (fh.file_hdr_.num_pages : Int)
      ∨ ∀ i, 0 ≤ i → i < fh.file_hdr_.num_records_per_page →
          (fh.pages RM_FIRST_RECORD_PAGE).bitmap i = false) :
    ∃ r0, RmScan.init fh = some (.ok r0)
      ∧ ((RmScan.is_end r0 = true ∧ r0 = ⟨RM_NO_PAGE, -1⟩)
         ∨ (RmScan.is_end r0 = false ∧ fh.live r0
            ∧ ∀ q, fh.live q → q = r0 ∨ Rid.lt r0 q))
      ∧ (RmScan.is_end r0 = true ↔ ∀ q, ¬ fh.live q) := by
  obtain ⟨r0, hr0, hcase⟩ := RmScan.init_spec fh hfirst
  refine ⟨r0, hr0, ?_, ?_⟩
  · rcases hcase with ⟨he, _⟩ | ⟨hlive, hmin⟩
    · left; rw [he]; exact ⟨RmScan.is_end_sentinel, rfl⟩
    · right; exact ⟨RmScan.live_not_end fh r0 hlive, hlive, hmin⟩
  · rcases hcase with ⟨he, hnone⟩ | ⟨hlive, _⟩
    · rw [he]
      exact ⟨fun _ => hnone, fun _ => RmScan.is_end_sentinel⟩
    · rw [RmScan.live_not_end fh r0 hlive]
      constructor
      · intro h; exact absurd h (by simp)
      · intro h; exact absurd hlive (h r0)

/-- Witness for C16: on the scenario of the spec after `B` was deleted the scanner
starts at `(1, 0)`; on a new file it starts at the end position. -/
theorem scanner_initial_position_witness :
    (∃ r0, RmScan.init scenario_deleted = some (.ok r0)
      ∧ ((RmScan.is_end r0 = true ∧ r0 = ⟨RM_NO_PAGE, -1⟩)
         ∨ (RmScan.is_end r0 = false ∧ scenario_deleted.live r0
            ∧ ∀ q, scenario_deleted.live q → q = r0 ∨ Rid.lt r0 q))
      ∧ (RmScan.is_end r0 = true ↔ ∀ q, ¬ scenario_deleted.live q))
    ∧ RmScan.init scenario_deleted = some (.ok ⟨1, 0⟩)
    ∧ RmScan.init (RmFileHandle.create_file 16 4) = some (.ok ⟨RM_NO_PAGE, -1⟩) :=
  ⟨scanner_initial_position scenario_deleted (Or.inl (by decide)), rfl, rfl⟩

/-- C17 (end of scan is absorbing): `is_end()` is true if and only if the scanner's
`page_no` equals `RM_NO_PAGE`; in every scanner state with `is_end()` true, `next()`
returns without raising and leaves `(page_no, slot_no)` unchanged, and so does any
number of further `next()` calls, so `is_end()` stays true. -/
theorem end_of_scan_absorbing (fh : RmFileHandle) (rid_ : Rid) :
    (RmScan.is_end rid_ = true ↔ rid_.page_no = RM_NO_PAGE)
      ∧ (RmScan.is_end rid_ = true → RmScan.next fh rid_ = some (.ok rid_))
      ∧ (RmScan.is_end rid_ = true → ∀ k, RmScan.next_n fh k rid_ = some (.ok rid_)) := by
  refine ⟨?_, RmScan.next_of_end fh rid_, fun h k => RmScan.next_n_of_end fh k rid_ h⟩
  simp [RmScan.is_end]

/-- Witness for C17 on the scenario of the spec: at the end position `next()` changes
nothing, once or five times. -/
theorem end_of_scan_absorbing_witness :
    RmScan.is_end ⟨RM_NO_PAGE, -1⟩ = true
      ∧ RmScan.next scenario_deleted ⟨RM_NO_PAGE, -1⟩ = some (.ok ⟨RM_NO_PAGE, -1⟩)
      ∧ RmScan.next_n scenario_deleted 5 ⟨RM_NO_PAGE, -1⟩ = some (.ok ⟨RM_NO_PAGE, -1⟩) :=
  ⟨by decide,
    (end_of_scan_absorbing scenario_deleted ⟨RM_NO_PAGE, -1⟩).2.1 (by decide),
    (end_of_scan_absorbing scenario_deleted ⟨RM_NO_PAGE, -1⟩).2.2 (by decide) 5⟩

/-- C20 (scanner position validity): in every state in which the first data page is
allocated or, when the file has no data page yet, the cached page 1 holds no occupancy
bit, after the constructor and after every further `next()` call the scanner has a
position (no call raises or fails to return) and either `is_end()` is true or `rid()`
names an allocated data page, a slot in `[0, num_records_per_page)` and a set occupancy
bit, so that `get_record(rid())` returns a record. -/
theorem scanner_position_valid (fh : RmFileHandle)
    (hfirst : RM_FIRST_RECORD_PAGE < (fh.file_hdr_.num_pages : Int)
      ∨ ∀ i, 0 ≤ i → i < fh.file_hdr_.num_records_per_page →
          (fh.pages RM_FIRST_RECORD_PAGE).bitmap i = false) :
    ∀ k, ∃ r, RmScan.position fh k = some (.ok r)
      ∧ (RmScan.is_end r = true
         ∨ (fh.is_data_page r.page_no ∧ 0 ≤ r.slot_no
            ∧ r.slot_no < fh.file_hdr_.num_records_per_page ∧ fh.occupied r = true
            ∧ ∃ rec, fh.get_record r = .ok rec)) := by
  intro k
  obtain ⟨r0, hr0, hcase⟩ := RmScan.init_spec fh hfirst
  have hv0 : RmScan.is_end r0 = true ∨ fh.live r0 := by
    rcases hcase with ⟨he, _⟩ | ⟨hlive, _⟩
    · left; rw [he]; exact RmScan.is_end_sentinel
    · right; exact hlive
  obtain ⟨r, hr, hv⟩ := RmScan.next_n_valid fh k r0 hv0
  refine ⟨r, by simp [RmScan.position, hr0, hr], ?_⟩
  rcases hv with he | hlive
  · exact Or.inl he
  · right
    obtain ⟨⟨h1, h2⟩, h3, h4, h5⟩ := hlive
    refine ⟨⟨h1, h2⟩, h3, h4, h5, ?_⟩
    have hp : r.page_no ≠ -1 := by
      simp only [RM_FIRST_RECORD_PAGE] at h1
      omega
    exact ⟨_, by simp [RmFileHandle.get_record, RmFileHandle.fetch_page_handle_ok _ _ hp]; rfl⟩

/-- Witness for C20 on the scenario of the spec after `B` was deleted: the positions
after the constructor and after 1, 2, 3 and 4 calls of `next()`. -/
theorem scanner_position_valid_witness :
    (∀ k, ∃ r, RmScan.position scenario_deleted k = some (.ok r)
      ∧ (RmScan.is_end r = true
         ∨ (scenario_deleted.is_data_page r.page_no ∧ 0 ≤ r.slot_no
            ∧ r.slot_no < scenario_deleted.file_hdr_.num_records_per_page
            ∧ scenario_deleted.occupied r = true
            ∧ ∃ rec, scenario_deleted.get_record r = .ok rec)))
    ∧ RmScan.position scenario_deleted 0 = some (.ok ⟨1, 0⟩)
    ∧ RmScan.position scenario_deleted 1 = some (.ok ⟨1, 2⟩)
    ∧ RmScan.position scenario_deleted 2 = some (.ok ⟨1, 3⟩)
    ∧ RmScan.position scenario_deleted 3 = some (.ok ⟨2, 0⟩)
    ∧ RmScan.position scenario_deleted 4 = some (.ok ⟨RM_NO_PAGE, -1⟩) :=
  ⟨scanner_position_valid scenario_deleted (Or.inl (by decide)), rfl, rfl, rfl, rfl, rfl⟩

/-! ## Scanner termination -/

namespace RmScan

theorem next_loop_mono (fh : RmFileHandle) (k : Nat) (r : Rid) (res : Except RmError Rid)
    (h : next_loop fh k r = some res) : ∀ k2, k ≤ k2 → next_loop fh k2 r = some res := by
  induction k generalizing r with
  | zero => simp [next_loop] at h
  | succ k ih =>
    intro k2 hk2
    obtain ⟨m, rfl⟩ : ∃ m, k2 = m + 1 := ⟨k2 - 1, by omega⟩
    unfold next_loop at h ⊢
    split
    · rename_i e he
      rw [he] at h
      exact h
    · rename_i page_handle he
      rw [he] at h
      simp only [] at h ⊢
      split
      · rename_i hfound
        rw [if_pos hfound] at h
        exact h
      · rename_i hfound
        rw [if_neg hfound] at h
        split
        · rename_i hlast
          rw [if_pos hlast] at h
          exact h
        · rename_i hlast
          rw [if_neg hlast] at h
          exact ih _ h m (by omega)

theorem next_loop_terminates (fh : RmFileHandle) (fuel : Nat) (r : Rid)
    (h1 : 1 ≤ fuel)
    (h2 : ((fh.file_hdr_.num_pages : Int) - r.page_no).toNat ≤ fuel) :
    ∃ res, next_loop fh fuel r = some res := by
  induction fuel generalizing r with
  | zero => omega
  | succ fuel ih =>
    unfold next_loop
    split
    · exact ⟨_, rfl⟩
    · simp only []
      split
      · exact ⟨_, rfl⟩
      · split
        · exact ⟨_, rfl⟩
        · rename_i hlast
          have hlt : r.page_no + 1 < (fh.file_hdr_.num_pages : Int) := by omega
          have hfuel : ((fh.file_hdr_.num_pages : Int) - (r.page_no + 1)).toNat ≤ fuel := by
            omega
          exact ih ⟨r.page_no + 1, -1⟩ (by omega) hfuel

theorem next_fetch_bound (fh : RmFileHandle) (hN : 1 ≤ fh.file_hdr_.num_pages) (r : Rid)
    (hp : RM_FIRST_RECORD_PAGE ≤ r.page_no) :
    ∃ k res, k ≤ fh.file_hdr_.num_pages ∧ next_loop fh k r = some res
      ∧ next fh r = some res := by
  simp only [RM_FIRST_RECORD_PAGE] at hp
  obtain ⟨res, hres⟩ := next_loop_terminates fh
    (max 1 ((fh.file_hdr_.num_pages : Int) - r.page_no).toNat) r
    (le_max_left _ _) (le_max_right _ _)
  refine ⟨_, res, ?_, hres, ?_⟩
  · apply max_le hN
    omega
  · have hne : is_end r = false := by
      simp only [is_end, RM_NO_PAGE, beq_eq_false_iff_ne, ne_eq]
      omega
    unfold next
    simp only [hne, Bool.false_eq_true, if_false]
    apply next_loop_mono fh _ r res hres
    apply max_le <;> omega

theorem mem_slots_of (bm : Int → Bool) (p : Int) (m i : Nat) (hi : i < m)
    (hb : bm (i : Int) = true) : (⟨p, (i : Int)⟩ : Rid) ∈ slots_of bm p m := by
  induction m with
  | zero => omega
  | succ m ih =>
    simp only [slots_of, List.mem_append]
    by_cases him : i = m
    · subst him
      right
      simp [hb]
    · left
      exact ih (by omega)

theorem length_slots_of (bm : Int → Bool) (p : Int) (m : Nat) :
    (slots_of bm p m).length = Bitmap.count_set bm m := by
  induction m with
  | zero => rfl
  | succ m ih =>
    simp only [slots_of, List.length_append, ih, Bitmap.count_set]
    split <;> simp

theorem mem_rids_of (fh : RmFileHandle) (K k : Nat) (hk : k < K) (x : Rid)
    (hx : x ∈ slots_of (fh.pages (RM_FIRST_RECORD_PAGE + (k : Int))).bitmap
        (RM_FIRST_RECORD_PAGE + (k : Int)) fh.file_hdr_.num_records_per_page.toNat) :
    x ∈ rids_of fh K := by
  induction K with
  | zero => omega
  | succ K ih =>
    simp only [rids_of, List.mem_append]
    by_cases hkK : k = K
    · subst hkK
      right
      exact hx
    · left
      exact ih (by omega)

theorem length_rids_of (fh : RmFileHandle) (K : Nat) :
    (rids_of fh K).length = count_pages fh K := by
  induction K with
  | zero => rfl
  | succ K ih =>
    simp only [rids_of, List.length_append, ih, count_pages, length_slots_of]

theorem live_mem_rids_of (fh : RmFileHandle) (q : Rid) (hq : fh.live q) :
    q ∈ rids_of fh (fh.file_hdr_.num_pages - 1) := by
  obtain ⟨⟨h1, h2⟩, h3, h4, h5⟩ := hq
  simp only [RM_FIRST_RECORD_PAGE] at h1
  obtain ⟨p, sl⟩ := q
  simp only at h1 h2 h3 h4
  obtain ⟨k, hk⟩ : ∃ k : Nat, p = 1 + (k : Int) := ⟨(p - 1).toNat, by omega⟩
  obtain ⟨i, hi⟩ : ∃ i : Nat, sl = (i : Int) := ⟨sl.toNat, by omega⟩
  subst hk hi
  apply mem_rids_of fh _ k (by omega)
  simp only [RM_FIRST_RECORD_PAGE]
  exact mem_slots_of _ _ _ i (by omega) h5

theorem collect_reaches_end (fh : RmFileHandle) (c : Nat) (r : Rid) (L : List Rid)
    (h : collect fh c r = some L) :
    ∃ e, next_n fh L.length r = some (.ok e) ∧ is_end e = true := by
  induction c generalizing r L with
  | zero => simp [collect] at h
  | succ c ih =>
    unfold collect at h
    by_cases he : is_end r = true
    · simp only [he, if_true, Option.some.injEq] at h
      subst h
      exact ⟨r, rfl, he⟩
    · simp only [he, Bool.false_eq_true, if_false] at h
      split at h
      · rename_i r2 hr2
        cases hc : collect fh c r2 with
        | none => simp [hc] at h
        | some L2 =>
          simp only [hc, Option.map_some', Option.some.injEq] at h
          subst h
          obtain ⟨e, he2, hend⟩ := ih r2 L2 hc
          exact ⟨e, by simp [next_n, hr2, he2], hend⟩
      · simp at h

end RmScan

/-- C18 (scanner termination): in every state whose file has its header page
(`num_pages ≥ 1`) and in which the first data page is allocated or the cached page 1
holds no occupancy bit, `next()` from any position with `page_no` at or after the first
data page returns, after at most `num_pages` iterations of its loop (one page fetch
each); and a scan started by the constructor is at `is_end()` after at most as many
further `next()` calls as there are set occupancy bits on the data pages, that is after
at most that number plus one calls of `next()`, the constructor's included. -/
theorem scanner_terminates (fh : RmFileHandle)
    (hN : 1 ≤ fh.file_hdr_.num_pages)
    (hfirst : RM_FIRST_RECORD_PAGE < (fh.file_hdr_.num_pages : Int)
      ∨ ∀ i, 0 ≤ i → i < fh.file_hdr_.num_records_per_page →
          (fh.pages RM_FIRST_RECORD_PAGE).bitmap i = false) :
    (∀ r, RM_FIRST_RECORD_PAGE ≤ r.page_no →
        ∃ k res, k ≤ fh.file_hdr_.num_pages ∧ RmScan.next_loop fh k r = some res
          ∧ RmScan.next fh r = some res)
      ∧ ∃ k e, k ≤ RmScan.occupied_count fh ∧ RmScan.position fh k = some (.ok e)
          ∧ RmScan.is_end e = true := by
  refine ⟨fun r hr => RmScan.next_fetch_bound fh hN r hr, ?_⟩
  obtain ⟨r0, hr0, hcase⟩ := RmScan.init_spec fh hfirst
  rcases hcase with ⟨he, _⟩ | ⟨hlive, _⟩
  · refine ⟨0, r0, Nat.zero_le _, by simp [RmScan.position, hr0, RmScan.next_n], ?_⟩
    rw [he]; exact RmScan.is_end_sentinel
  · obtain ⟨L, hL, hsorted, hmem⟩ :=
      RmScan.collect_spec fh _ r0 hlive (RmScan.rank_le fh r0 hlive)
    obtain ⟨e, he, hend⟩ := RmScan.collect_reaches_end fh _ r0 L hL
    refine ⟨L.length, e, ?_, by simp [RmScan.position, hr0, he], hend⟩
    have hnodup : L.Nodup := by
      refine List.Pairwise.imp ?_ hsorted
      intro a b hab heq
      subst heq
      exact RmScan.Rid_lt_irrefl a hab
    have hsub : L ⊆ RmScan.rids_of fh (fh.file_hdr_.num_pages - 1) := by
      intro q hq
      exact RmScan.live_mem_rids_of fh q ((hmem q).1 hq).1
    have hle := (List.subperm_of_subset hnodup hsub).length_le
    rw [RmScan.length_rids_of] at hle
    exact hle

/-- Witness for C18 on the scenario of the spec after `B` was deleted: four occupancy
bits are set, and the scanner is at the end after four calls of `next()` following the
constructor. -/
theorem scanner_terminates_witness :
    ((∀ r, RM_FIRST_RECORD_PAGE ≤ r.page_no →
        ∃ k res, k ≤ scenario_deleted.file_hdr_.num_pages
          ∧ RmScan.next_loop scenario_deleted k r = some res
          ∧ RmScan.next scenario_deleted r = some res)
      ∧ ∃ k e, k ≤ RmScan.occupied_count scenario_deleted
          ∧ RmScan.position scenario_deleted k = some (.ok e)
          ∧ RmScan.is_end e = true)
    ∧ RmScan.occupied_count scenario_deleted = 4
    ∧ RmScan.position scenario_deleted 4 = some (.ok ⟨RM_NO_PAGE, -1⟩)
    ∧ RmScan.next_loop scenario_deleted 2 ⟨1, 3⟩ = some (.ok ⟨2, 0⟩) :=
  ⟨scanner_terminates scenario_deleted (by decide) (Or.inl (by decide)), by decide, rfl,
    rfl⟩

/-! ## Cycles in the free-page list -/

theorem RmFileHandle.free_list_from_self_loop_eq (s : RmFileHandle) (p : Int)
    (hp : p ≠ RM_NO_PAGE) (hloop : (s.pages p).page_hdr.next_free_page_no = p) (k : Nat) :
    s.free_list_from k p = List.replicate k p := by
  induction k with
  | zero => rfl
  | succ k ih =>
    unfold RmFileHandle.free_list_from
    rw [if_neg hp, hloop, ih]
    rfl

/-- C19 at its failing input: on a new file with 4 slots per page, insert `A` and
delete `A` (an occupied slot) leave `first_free_page_no = 1` and page 1's
`next_free_page_no = 1`: following the links never reaches the sentinel, and the walk
of any length `k` visits page 1 `k` times. -/
theorem free_list_self_loop_after_delete :
    (RmFileHandle.create_file 16 4).admissible_run [.insert (rec16 65), .delete ⟨1, 0⟩]
      ∧ self_loop_state.file_hdr_.first_free_page_no = 1
      ∧ (self_loop_state.pages 1).page_hdr.next_free_page_no = 1
      ∧ (∀ k, self_loop_state.free_list_from k self_loop_state.file_hdr_.first_free_page_no
            = List.replicate k 1)
      ∧ ¬ (self_loop_state.free_list_from 2
            self_loop_state.file_hdr_.first_free_page_no).Nodup := by
  refine ⟨by decide, by decide, by decide, ?_, by decide⟩
  intro k
  have h1 : self_loop_state.file_hdr_.first_free_page_no = 1 := by decide
  rw [h1]
  exact RmFileHandle.free_list_from_self_loop_eq self_loop_state 1 (by decide) (by decide) k

/-! ## Round trip -/

/-- C1 counterexample: the new file with `bitmap_size = num_records_per_page = 0` meets
the header invariant of the claim; `insert_record` returns `(2, 0)`, and on the bytes of
that page slot 0 starts where the empty bit vector starts, so `Bitmap::set` after the
copy changes the first byte of the record: `get_record` reads `193, 65, ..., 65`, not
the 16 bytes `65` that were inserted. -/
theorem round_trip_fails_with_zero_slots :
    (RmFileHandle.create_file 16 0).file_hdr_.bitmap_size
        = (RmFileHandle.create_file 16 0).file_hdr_.num_records_per_page
      ∧ ((RmFileHandle.create_file 16 0).insert_record (rec16 65)).1 = .ok ⟨2, 0⟩
      ∧ RawPage.slot_offset 16 0 0 = RawPage.HDR_SIZE
      ∧ RawPage.get_record 16 0 RawPage.fresh_with_A_no_slots 0
          = 193 :: List.replicate 15 65
      ∧ RawPage.get_record 16 0 RawPage.fresh_with_A_no_slots 0 ≠ rec16 65 := by
  refine ⟨rfl, rfl, by decide, by decide, by decide⟩

/-- C1 amended (round trip): in every state with
`bitmap_size = num_records_per_page ≥ 1`, for every record `r` of `record_size` bytes,
`insert_record(r)` returns a Rid, its slot number lies in `[0, num_records_per_page)`,
and `get_record` of that Rid in the resulting state returns a record of size
`record_size` whose bytes are `r`. -/
theorem insert_then_get_round_trip (s : RmFileHandle) (r : List UInt8)
    (hinv : s.file_hdr_.bitmap_size = s.file_hdr_.num_records_per_page)
    (hn : 0 < s.file_hdr_.num_records_per_page)
    (hr : r.length = s.file_hdr_.record_size) :
    ∃ rid, (s.insert_record r).1 = .ok rid
      ∧ 0 ≤ rid.slot_no ∧ rid.slot_no < s.file_hdr_.num_records_per_page
      ∧ (s.insert_record r).2.get_record rid
          = .ok { size := s.file_hdr_.record_size, data := r } := by
  obtain ⟨h0, h1, _⟩ := RmFileHandle.insert_target_slot s ⟨hinv, hn⟩
  rw [RmFileHandle.insert_record_eq]
  refine ⟨_, rfl, h0, h1, ?_⟩
  have h := RmFileHandle.get_record_write_slot s.insert_target.1 s.insert_target.2.1
    s.insert_target.2.2 r (RmFileHandle.insert_target_page_ne s)
    (by rw [(RmFileHandle.insert_target_hdr s).1]; exact hr)
  rw [(RmFileHandle.insert_target_hdr s).1] at h
  exact h

/-- Witness for C1 amended on the scenario of the spec: inserting `F` after `B` was
deleted. -/
theorem insert_then_get_round_trip_witness :
    ∃ rid, (scenario_deleted.insert_record (rec16 70)).1 = .ok rid
      ∧ 0 ≤ rid.slot_no ∧ rid.slot_no < scenario_deleted.file_hdr_.num_records_per_page
      ∧ (scenario_deleted.insert_record (rec16 70)).2.get_record rid
          = .ok { size := scenario_deleted.file_hdr_.record_size, data := rec16 70 } :=
  insert_then_get_round_trip scenario_deleted (rec16 70) (by decide) (by decide) (by decide)

/-! ## Capacity invariant over call sequences -/

/-- C3 counterexample: from an empty file, deleting an unoccupied slot, a positioned
insert at a slot number outside `[0, num_records_per_page)`, and an insert into a file
with zero slots per page each leave a page whose `num_records` differs from the number
of set bits in `[0, num_records_per_page)`; and on the bytes of page 1 of the scenario,
where the two agree, an update at slot number `-1` copies the record over the page
header and the bit vector, after which they differ. -/
theorem capacity_broken_by_unchecked_calls :
    ¬ ((RmFileHandle.create_file 16 4).run
          [.insert (rec16 65), .delete ⟨1, 1⟩]).capacity_ok 1
    ∧ ¬ ((RmFileHandle.create_file 16 4).run
          [.insert (rec16 65), .insert_at ⟨1, 4⟩ (rec16 66)]).capacity_ok 1
    ∧ ¬ ((RmFileHandle.create_file 16 0).run [.insert (rec16 65)]).capacity_ok 2
    ∧ RawPage.num_records RawPage.scenario_page1 = RawPage.popcount RawPage.scenario_page1 4
    ∧ RawPage.num_records (RawPage.update 16 4 RawPage.scenario_page1 (-1) (rec16 97))
        ≠ RawPage.popcount (RawPage.update 16 4 RawPage.scenario_page1 (-1) (rec16 97)) 4 := by
  refine ⟨by decide, by decide, by decide, by decide, by decide⟩

/-- C3 amended (capacity invariant): in every state reached from an empty file with at
least one slot per page by calls of `insert_record(data)`, `insert_record(rid, data)`,
`delete_record(rid)` and `update_record(rid, data)` in which every positioned insert and
every update names a slot in `[0, num_records_per_page)` and every delete names such a
slot whose occupancy bit is set, every page's `num_records` equals the number of set
bits in `[0, num_records_per_page)` of its occupancy bit vector. -/
theorem capacity_invariant_reachable (record_size : Nat) (n : Int) (hn : 0 < n)
    (ops : List RmFileHandle.Op)
    (hadm : (RmFileHandle.create_file record_size n).admissible_run ops) :
    ∀ p, ((RmFileHandle.create_file record_size n).run ops).capacity_ok p := by
  apply RmFileHandle.capacity_run _ ops ⟨rfl, hn⟩ _ hadm
  intro p
  simp [RmFileHandle.capacity_ok, RmFileHandle.create_file, RmFileHandle.create_file_from,
    Page.zeroed, Bitmap.popcount_zeroed]

/-- Witness for C3 amended: the calls of the scenario of the spec are admissible and
keep the invariant on every page. -/
theorem capacity_invariant_reachable_witness :
    (0 : Int) < 4 ∧ (RmFileHandle.create_file 16 4).admissible_run scenario_calls
      ∧ ∀ p, ((RmFileHandle.create_file 16 4).run scenario_calls).capacity_ok p :=
  ⟨by decide, by decide,
    capacity_invariant_reachable 16 4 (by decide) scenario_calls (by decide)⟩

/-! ## Rid stability -/

/-- C6 counterexample: in the scenario of the spec after `A..D` were inserted, `A` at
`(1, 0)` is occupied and the bytes of page 1 agree with the typed page; an update of
the other Rid `(1, -1)` copies its 16 bytes over the page header and the bit vector, and
afterwards the occupancy bit of `(1, 0)` is clear. -/
theorem update_outside_slots_clears_other_bit :
    scenario_inserted.occupied ⟨1, 0⟩ = true
      ∧ (⟨1, -1⟩ : Rid) ≠ ⟨1, 0⟩
      ∧ RawPage.is_set RawPage.scenario_page1 0 = scenario_inserted.occupied ⟨1, 0⟩
      ∧ .ok ⟨16, RawPage.get_record 16 4 RawPage.scenario_page1 0⟩
          = scenario_inserted.get_record ⟨1, 0⟩
      ∧ RawPage.slot_offset 16 4 (-1) + 16 = RawPage.slot_offset 16 4 0
      ∧ RawPage.slot_offset 16 4 (-1) ≤ 0
      ∧ RawPage.is_set (RawPage.update 16 4 RawPage.scenario_page1 (-1) (rec16 97)) 0
          = false := by
  refine ⟨by decide, by decide, by decide, rfl, by decide, by decide, by decide⟩

/-- C6 amended (Rid stability): in every state with
`bitmap_size = num_records_per_page ≥ 1`, for every Rid on an allocated page with slot
number in `[0, num_records_per_page)` whose occupancy bit is set, a single
`insert_record(data)`, or a positioned insert, delete or update naming another Rid with
slot number in `[0, num_records_per_page)`, leaves the occupancy bit of the Rid set and
`get_record` of it returning the same result as before. -/
theorem rid_stable_under_other_calls (s : RmFileHandle) (rid : Rid) (op : RmFileHandle.Op)
    (hg : s.geometry_ok)
    (hocc : s.occupied rid = true)
    (hk0 : 0 ≤ rid.slot_no) (hkn : rid.slot_no < s.file_hdr_.num_records_per_page)
    (halloc : rid.page_no < (s.file_hdr_.num_pages : Int))
    (hav : RmFileHandle.Op.avoids rid op)
    (hrange : RmFileHandle.Op.slot_in_range s.file_hdr_.num_records_per_page op) :
    (s.apply op).occupied rid = true
      ∧ (s.apply op).get_record rid = s.get_record rid := by
  have _ := hg
  have _ := hk0
  have _ := hkn
  have _ := hrange
  cases op with
  | insert buf =>
    simp only [RmFileHandle.apply, RmFileHandle.insert_record_eq]
    have hpages : s.insert_target.1.pages rid.page_no = s.pages rid.page_no := by
      rcases RmFileHandle.insert_target_cases s with ⟨h1, _, _⟩ | ⟨_, h2⟩
      · rw [h1]
      · exact h2 _ halloc
    have hsame := RmFileHandle.frame_of_same_slot s s.insert_target.1 rid
      (RmFileHandle.insert_target_hdr s).1 (by rw [hpages]) (by rw [hpages])
    have hne : rid.page_no = s.insert_target.2.1.page_no → rid.slot_no ≠ s.insert_target.2.2 := by
      intro hp hs
      rcases RmFileHandle.insert_target_cases s with ⟨_, h2, h3⟩ | ⟨h2, _⟩
      · have hocc2 : (s.pages rid.page_no).bitmap rid.slot_no = true := hocc
        rw [hp, h2, hs, h3] at hocc2
        exact absurd hocc2 (by simp)
      · omega
    have hw := RmFileHandle.frame_write_slot s.insert_target.1 s.insert_target.2.1
      s.insert_target.2.2 buf rid (by rw [hsame.1]; exact hocc) hne
    exact ⟨hw.1, by rw [hw.2, hsame.2]⟩
  | insert_at r buf =>
    simp only [RmFileHandle.apply]
    by_cases hp : r.page_no = -1
    · rw [RmFileHandle.insert_record_at_error s r buf hp]; exact ⟨hocc, rfl⟩
    · by_cases hro : s.occupied r = true
      · rw [RmFileHandle.insert_record_at_occupied s r buf hp hro]; exact ⟨hocc, rfl⟩
      · have hro2 : s.occupied r = false := by simpa using hro
        rw [RmFileHandle.insert_record_at_ok s r buf hp hro2]
        exact RmFileHandle.frame_write_slot s ⟨r.page_no⟩ r.slot_no buf rid hocc
          (fun h => Rid.slot_ne_of_ne r rid hav h)
  | delete r =>
    simp only [RmFileHandle.apply]
    by_cases hp : r.page_no = -1
    · rw [RmFileHandle.delete_record_error s r hp]; exact ⟨hocc, rfl⟩
    · have key := RmFileHandle.frame_of_same_slot s (s.delete_record r).2 rid
        (by rw [RmFileHandle.delete_record_file_hdr s r hp])
        (by
          rw [RmFileHandle.delete_record_pages s r hp]
          by_cases hq : rid.page_no = r.page_no
          · simp only [hq, if_true, Bitmap.reset]
            have := Rid.slot_ne_of_ne r rid hav hq
            simp only [this, if_false]
          · simp only [hq, if_false])
        (by
          rw [RmFileHandle.delete_record_pages s r hp]
          by_cases hq : rid.page_no = r.page_no
          · simp only [hq, if_true]
          · simp only [hq, if_false])
      rw [key.1, key.2]
      exact ⟨hocc, rfl⟩
  | update r buf =>
    simp only [RmFileHandle.apply]
    by_cases hp : r.page_no = -1
    · rw [RmFileHandle.update_record_error s r buf hp]; exact ⟨hocc, rfl⟩
    · rw [RmFileHandle.update_record_ok s r buf hp]
      have key := RmFileHandle.frame_of_same_slot s
        (s.set_page r.page_no
          { (s.pages r.page_no) with
            slots := fun i =>
              if i = r.slot_no then
                memcpy ((s.pages r.page_no).slots r.slot_no) buf s.file_hdr_.record_size
              else (s.pages r.page_no).slots i }) rid rfl
        (by
          by_cases hq : rid.page_no = r.page_no
          · rw [hq, RmFileHandle.set_page_pages_same]
          · rw [RmFileHandle.set_page_pages_other _ _ _ _ hq])
        (by
          by_cases hq : rid.page_no = r.page_no
          · have := Rid.slot_ne_of_ne r rid hav hq
            rw [hq, RmFileHandle.set_page_pages_same]
            simp only [this, if_false]
          · rw [RmFileHandle.set_page_pages_other _ _ _ _ hq])
      rw [key.1, key.2]
      exact ⟨hocc, rfl⟩

/-- Witness for C6 amended on the scenario of the spec: `A` at `(1, 0)` survives the
insert of `F`, the delete of `C` and an update of `D`. -/
theorem rid_stable_under_other_calls_witness :
    ((scenario_deleted.apply (.insert (rec16 70))).occupied ⟨1, 0⟩ = true
      ∧ (scenario_deleted.apply (.insert (rec16 70))).get_record ⟨1, 0⟩
          = scenario_deleted.get_record ⟨1, 0⟩)
    ∧ ((scenario_deleted.apply (.delete ⟨1, 2⟩)).occupied ⟨1, 0⟩ = true
      ∧ (scenario_deleted.apply (.delete ⟨1, 2⟩)).get_record ⟨1, 0⟩
          = scenario_deleted.get_record ⟨1, 0⟩)
    ∧ ((scenario_deleted.apply (.update ⟨1, 3⟩ (rec16 97))).occupied ⟨1, 0⟩ = true
      ∧ (scenario_deleted.apply (.update ⟨1, 3⟩ (rec16 97))).get_record ⟨1, 0⟩
          = scenario_deleted.get_record ⟨1, 0⟩)
    ∧ scenario_deleted.get_record ⟨1, 0⟩ = .ok ⟨16, rec16 65⟩ :=
  ⟨rid_stable_under_other_calls scenario_deleted ⟨1, 0⟩ (.insert (rec16 70))
      ⟨by decide, by decide⟩ (by decide) (by decide) (by decide) (by decide) (by decide)
      (by decide),
    rid_stable_under_other_calls scenario_deleted ⟨1, 0⟩ (.delete ⟨1, 2⟩)
      ⟨by decide, by decide⟩ (by decide) (by decide) (by decide) (by decide) (by decide)
      (by decide),
    rid_stable_under_other_calls scenario_deleted ⟨1, 0⟩ (.update ⟨1, 3⟩ (rec16 97))
      ⟨by decide, by decide⟩ (by decide) (by decide) (by decide) (by decide) (by decide)
      (by decide),
    rfl⟩

/-! ## Delete then reuse -/

/-- C10 counterexample: two states in which an occupied Rid lies on a page with
`num_records = num_records_per_page` and the insert after its delete returns another
Rid. In the first, reached by four inserts, the delete of `(1, 0)` and a positioned
insert at `(1, 5)`, the page is full by count while slot 0 is free: after the delete of
`(1, 2)` the insert returns `(1, 0)`. In the second the header has `bitmap_size = 1`
with 4 slots per page, slots 0 to 3 of page 1 are occupied and the capacity invariant
holds: after the delete of `(1, 2)` the slot search sees only bit 0 and the insert
returns `(2, 0)`. -/
theorem reuse_fails_on_other_states :
    (count_full_state.occupied ⟨1, 2⟩ = true
      ∧ (count_full_state.pages 1).page_hdr.num_records
          = count_full_state.file_hdr_.num_records_per_page
      ∧ ((count_full_state.delete_record ⟨1, 2⟩).2.insert_record (rec16 70)).1
          = .ok ⟨1, 0⟩)
    ∧ (narrow_bitmap_state.occupied ⟨1, 2⟩ = true
      ∧ (narrow_bitmap_state.pages 1).page_hdr.num_records
          = narrow_bitmap_state.file_hdr_.num_records_per_page
      ∧ narrow_bitmap_state.capacity_ok 1
      ∧ narrow_bitmap_state.file_hdr_.bitmap_size = 1
      ∧ ((narrow_bitmap_state.delete_record ⟨1, 2⟩).2.insert_record (rec16 70)).1
          = .ok ⟨2, 0⟩) := by
  refine ⟨⟨by decide, by decide, rfl⟩, ⟨by decide, by decide, by decide, by decide, rfl⟩⟩

/-- C10 amended (delete then reuse): for every state and every Rid on a fetchable page
with slot number in `[0, num_records_per_page)` whose occupancy bit is set,
`delete_record(rid)` succeeds and afterwards the occupancy bit of `rid` is clear; and if
the header has `bitmap_size = num_records_per_page` and the page of `rid` satisfied the
capacity invariant and was full before the delete, then the next `insert_record(data)`
returns exactly `rid`. -/
theorem delete_then_reuse (s : RmFileHandle) (rid : Rid)
    (hocc : s.occupied rid = true) (hvalid : rid.page_no ≠ INVALID_PAGE_ID)
    (hk0 : 0 ≤ rid.slot_no) (hkn : rid.slot_no < s.file_hdr_.num_records_per_page) :
    (s.delete_record rid).1 = .ok ()
      ∧ (s.delete_record rid).2.occupied rid = false
      ∧ (s.file_hdr_.bitmap_size = s.file_hdr_.num_records_per_page →
          s.capacity_ok rid.page_no →
          (s.pages rid.page_no).page_hdr.num_records = s.file_hdr_.num_records_per_page →
          ∀ buf, ((s.delete_record rid).2.insert_record buf).1 = .ok rid) := by
  have _ := hocc
  have hp : rid.page_no ≠ -1 := hvalid
  have hbit : ((s.delete_record rid).2.pages rid.page_no).bitmap
      = Bitmap.reset (s.pages rid.page_no).bitmap rid.slot_no := by
    rw [RmFileHandle.delete_record_pages s rid hp]; simp
  refine ⟨RmFileHandle.delete_record_fst s rid hp, ?_, ?_⟩
  · simp [RmFileHandle.occupied, Bitmap.is_set, hbit, Bitmap.reset]
  · intro hbs hcap hfull buf
    have hhdr := RmFileHandle.delete_record_file_hdr s rid hp
    have hlt : (s.pages rid.page_no).page_hdr.num_records - 1
        < s.file_hdr_.num_records_per_page := by omega
    simp only [hlt, if_true] at hhdr
    have hff : (s.delete_record rid).2.file_hdr_.first_free_page_no = rid.page_no := by
      rw [hhdr]
    have hn : (s.delete_record rid).2.file_hdr_.num_records_per_page
        = s.file_hdr_.num_records_per_page := by rw [hhdr]
    have hb : (s.delete_record rid).2.file_hdr_.bitmap_size = s.file_hdr_.bitmap_size := by
      rw [hhdr]
    have hg : (s.delete_record rid).2.geometry_ok := by
      unfold RmFileHandle.geometry_ok
      rw [hn, hb]
      exact ⟨hbs, by omega⟩
    have hroom : (s.delete_record rid).2.head_has_room := by
      refine ⟨by rw [hff]; exact hp, rid.slot_no, hk0, by rw [hn]; exact hkn, ?_⟩
      rw [hff, hbit]
      simp [Bitmap.reset]
    obtain ⟨ht, h0, h1, hclear, _⟩ := RmFileHandle.insert_target_head _ hg hroom
    rw [RmFileHandle.insert_record_eq, ht]
    simp only [hff, hbit, hb, hn] at h0 h1 hclear ⊢
    have hall := Bitmap.popcount_full (s.pages rid.page_no).bitmap
      s.file_hdr_.num_records_per_page (by
        unfold RmFileHandle.capacity_ok at hcap
        rw [← hcap, hfull])
    generalize RmFileHandle.find_free_slot
      (Bitmap.reset (s.pages rid.page_no).bitmap rid.slot_no) s.file_hdr_.bitmap_size = k
      at h0 h1 hclear ⊢
    have hk : k = rid.slot_no := by
      by_contra hne
      have hset := hall k h0 h1
      simp only [Bitmap.reset, hne, if_false] at hclear
      rw [hset] at hclear
      exact absurd hclear (by simp)
    rw [hk]

/-- Witness for C10 amended on the scenario of the spec: page 1 is full after `A..E`,
`B` at `(1, 1)` is deleted, and the insert of `F` returns `(1, 1)`. -/
theorem delete_then_reuse_witness :
    scenario_inserted.occupied ⟨1, 1⟩ = true
      ∧ scenario_inserted.file_hdr_.bitmap_size
          = scenario_inserted.file_hdr_.num_records_per_page
      ∧ (scenario_inserted.pages 1).page_hdr.num_records
          = scenario_inserted.file_hdr_.num_records_per_page
      ∧ scenario_inserted.capacity_ok 1
      ∧ (scenario_inserted.delete_record ⟨1, 1⟩).1 = .ok ()
      ∧ (scenario_inserted.delete_record ⟨1, 1⟩).2.occupied ⟨1, 1⟩ = false
      ∧ ((scenario_inserted.delete_record ⟨1, 1⟩).2.insert_record (rec16 70)).1 = .ok ⟨1, 1⟩ :=
  ⟨by decide, by decide, by decide, by decide,
    (delete_then_reuse scenario_inserted ⟨1, 1⟩ (by decide) (by decide) (by decide)
      (by decide)).1,
    (delete_then_reuse scenario_inserted ⟨1, 1⟩ (by decide) (by decide) (by decide)
      (by decide)).2.1,
    (delete_then_reuse scenario_inserted ⟨1, 1⟩ (by decide) (by decide) (by decide)
      (by decide)).2.2 (by decide) (by decide) (by decide) (rec16 70)⟩

/-! ## Idempotent update -/

/-- C11 counterexample: on the bytes of page 1 of the scenario of the spec after `A..D`
were inserted (which agree with the typed page: `num_records = 4`,
`next_free_page_no = -1`, bits 0 to 3 set), an update at the Rid `(1, -1)` with 16 bytes
`97` copies them over the page header and the bit vector: afterwards `num_records` and
`next_free_page_no` are `1633771873` and bit 0 is clear. -/
theorem update_outside_slots_overwrites_header :
    RawPage.num_records RawPage.scenario_page1
        = (scenario_inserted.pages 1).page_hdr.num_records
      ∧ RawPage.next_free_page_no RawPage.scenario_page1
        = (scenario_inserted.pages 1).page_hdr.next_free_page_no
      ∧ RawPage.is_set RawPage.scenario_page1 0 = (scenario_inserted.pages 1).bitmap 0
      ∧ RawPage.num_records RawPage.scenario_page1 = 4
      ∧ RawPage.next_free_page_no RawPage.scenario_page1 = -1
      ∧ RawPage.is_set RawPage.scenario_page1 0 = true
      ∧ RawPage.num_records (RawPage.update 16 4 RawPage.scenario_page1 (-1) (rec16 97))
          = 1633771873
      ∧ RawPage.next_free_page_no
            (RawPage.update 16 4 RawPage.scenario_page1 (-1) (rec16 97)) = 1633771873
      ∧ RawPage.is_set (RawPage.update 16 4 RawPage.scenario_page1 (-1) (rec16 97)) 0
          = false := by
  refine ⟨by decide, by decide, by decide, by decide, by decide, by decide, by decide,
    by decide, by decide⟩

/-- C11 amended (idempotent update): for every state, every Rid whose page number is not
the invalid page identity and whose slot number lies in `[0, num_records_per_page)`, and
every record `d` of `record_size` bytes, both updates succeed, the state after
`update_record(rid, d); update_record(rid, d)` equals the state after a single
`update_record(rid, d)`, in it `get_record(rid)` returns `d`, and the file header and
every page's header (`num_records`, `next_free_page_no`) and occupancy bit vector are
the same as before the first update. -/
theorem update_record_idempotent (s : RmFileHandle) (rid : Rid) (d : List UInt8)
    (hvalid : rid.page_no ≠ INVALID_PAGE_ID)
    (hk0 : 0 ≤ rid.slot_no) (hkn : rid.slot_no < s.file_hdr_.num_records_per_page)
    (hd : d.length = s.file_hdr_.record_size) :
    (s.update_record rid d).1 = .ok ()
      ∧ ((s.update_record rid d).2.update_record rid d).1 = .ok ()
      ∧ ((s.update_record rid d).2.update_record rid d).2 = (s.update_record rid d).2
      ∧ (s.update_record rid d).2.get_record rid
          = .ok { size := s.file_hdr_.record_size, data := d }
      ∧ (s.update_record rid d).2.file_hdr_ = s.file_hdr_
      ∧ ∀ p, ((s.update_record rid d).2.pages p).page_hdr = (s.pages p).page_hdr
          ∧ ((s.update_record rid d).2.pages p).bitmap = (s.pages p).bitmap := by
  have _ := hk0
  have _ := hkn
  have hp : rid.page_no ≠ -1 := hvalid
  rw [RmFileHandle.update_record_ok s rid d hp]
  rw [RmFileHandle.update_record_ok _ rid d hp]
  refine ⟨rfl, rfl, ?_, ?_, rfl, ?_⟩
  · simp only [RmFileHandle.set_page_pages_same, RmFileHandle.set_page_file_hdr,
      RmFileHandle.set_page_set_page]
    congr 2
    funext i
    by_cases hi : i = rid.slot_no
    · simp only [hi, if_true]
      exact memcpy_idem _ _ _ hd
    · simp only [hi, if_false]
  · simp [RmFileHandle.get_record, RmFileHandle.fetch_page_handle_ok _ _ hp,
      RmFileHandle.get_slot, RmFileHandle.memcpy_take _ _ _ hd]
  · intro p
    by_cases hq : p = rid.page_no
    · subst hq
      rw [RmFileHandle.set_page_pages_same]
      exact ⟨rfl, rfl⟩
    · rw [RmFileHandle.set_page_pages_other _ _ _ _ hq]
      exact ⟨rfl, rfl⟩

/-- Witness for C11 amended on the scenario of the spec: `A` at `(1, 0)` updated twice
with a 16-byte record of `a` bytes. -/
theorem update_record_idempotent_witness :
    (scenario_deleted.update_record ⟨1, 0⟩ (rec16 97)).1 = .ok ()
      ∧ ((scenario_deleted.update_record ⟨1, 0⟩ (rec16 97)).2.update_record ⟨1, 0⟩
            (rec16 97)).1 = .ok ()
      ∧ ((scenario_deleted.update_record ⟨1, 0⟩ (rec16 97)).2.update_record ⟨1, 0⟩
            (rec16 97)).2 = (scenario_deleted.update_record ⟨1, 0⟩ (rec16 97)).2
      ∧ (scenario_deleted.update_record ⟨1, 0⟩ (rec16 97)).2.get_record ⟨1, 0⟩
          = .ok { size := scenario_deleted.file_hdr_.record_size, data := rec16 97 }
      ∧ (scenario_deleted.update_record ⟨1, 0⟩ (rec16 97)).2.file_hdr_
          = scenario_deleted.file_hdr_
      ∧ ∀ p, ((scenario_deleted.update_record ⟨1, 0⟩ (rec16 97)).2.pages p).page_hdr
            = (scenario_deleted.pages p).page_hdr
          ∧ ((scenario_deleted.update_record ⟨1, 0⟩ (rec16 97)).2.pages p).bitmap
            = (scenario_deleted.pages p).bitmap :=
  update_record_idempotent scenario_deleted ⟨1, 0⟩ (rec16 97) (by decide) (by decide)
    (by decide) (by decide)

/-! ## Placement in the scenario of the spec -/

